import Mathlib

/-!
# SimpleZNSDevice: the write-once (linear) log `SZDOnceLog`

A shallow embedding of `src/cpp/datastructures/szd_once_log.cpp`.

* `uint64_t` values are natural numbers; every arithmetic operation the log
  itself performs is reduced modulo `2 ^ 64` (`add64`, `sub64`, `mul64`).
* The device channel (`channel_`) is an external collaborator.  It is a record
  of transition functions over an arbitrary device state `σ`; the log reaches
  it only through the wrappers of `Device`, which also append one
  `ChannelCall` entry to a call journal for every call that is made.
* An integer division by zero and a loop that has not finished within the
  given number of iterations are faults (`Except Fault`).
-/

namespace SimpleZNSDeviceNamespace

/-! ## Machine arithmetic -/

/-- Truncation of a value to `uint64_t`. -/
def wrap64 (x : Nat) : Nat := x % 2 ^ 64

/-- Addition `a + b` of `uint64_t`. -/
def add64 (a b : Nat) : Nat := (a + b) % 2 ^ 64

/-- Subtraction `a - b` of `uint64_t` (wraps around below zero). -/
def sub64 (a b : Nat) : Nat := (a + (2 ^ 64 - b % 2 ^ 64)) % 2 ^ 64

/-- Multiplication `a * b` of `uint64_t`. -/
def mul64 (a b : Nat) : Nat := (a * b) % 2 ^ 64

/-- Faults that end an execution without a status. -/
inductive Fault where
  | DivisionByZero
  | OutOfFuel
  deriving DecidableEq, Repr

/-! ## Collaborators that are declared outside the translated file -/

/-- Modelled from the spec: the closed result code `SZDStatus` of
`szd/cpp/szd_status.h` ("`Success`, `IOError`, ..."); the header is not part of
the sources at hand.  Only `Success` and `IOError` are named by the log. -/
inductive SZDStatus where
  | Success
  | InvalidArguments
  | IOError
  | DeviceError
  | MemoryError
  | Unknown
  deriving DecidableEq, Repr

/-- Modelled from the spec: `SZDBuffer`, an "opaque owned or borrowed byte
container with a known size" (`szd_buffer.h` is not part of the sources at
hand). -/
structure SZDBuffer where
  backed_memory_ : List Nat
  buffer_size_ : Nat
  deriving DecidableEq, Repr

/-- The accessor `SZDBuffer::GetBufferSize`. -/
def SZDBuffer.GetBufferSize (buffer : SZDBuffer) : Nat := buffer.buffer_size_

/-- Modelled from the spec: the part of `DeviceInfo` ("fixed `zone_size`") that
the log reads at construction. -/
structure DeviceInfo where
  zone_size : Nat
  deriving DecidableEq, Repr

/-- The device channel `SZDChannel`, as far as the log calls it.  A primitive
that receives a pointer to a `uint64_t` takes the value currently stored there
and yields the value it leaves there. -/
structure SZDChannel (σ : Type) where
  DirectAppend : σ → Nat → List Nat → Nat → Bool → SZDStatus × Nat × σ
  FlushBufferSection : σ → Nat → SZDBuffer → Nat → Nat → Bool → SZDStatus × Nat × σ
  FlushBuffer : σ → Nat → SZDBuffer → SZDStatus × Nat × σ
  DirectRead : σ → Nat → List Nat → Nat → Bool → SZDStatus × List Nat × σ
  ReadIntoBuffer : σ → Nat → SZDBuffer → Nat → Nat → Bool → SZDStatus × SZDBuffer × σ
  ResetZone : σ → Nat → SZDStatus × σ
  ZoneHead : σ → Nat → Nat → SZDStatus × Nat × σ

/-- One call of a channel primitive: its arguments, the status it returned and
(for a primitive with a `uint64_t` out-parameter) the value it left there. -/
inductive ChannelCall where
  | DirectAppend (write_head : Nat) (data : List Nat) (size : Nat) (alligned : Bool)
      (s : SZDStatus) (out : Nat)
  | FlushBufferSection (write_head : Nat) (buffer : SZDBuffer) (addr size : Nat)
      (alligned : Bool) (s : SZDStatus) (out : Nat)
  | FlushBuffer (write_head : Nat) (buffer : SZDBuffer) (s : SZDStatus) (out : Nat)
  | DirectRead (lba size : Nat) (alligned : Bool) (s : SZDStatus)
  | ReadIntoBuffer (lba addr size : Nat) (alligned : Bool) (s : SZDStatus)
  | ResetZone (slba : Nat) (s : SZDStatus)
  | ZoneHead (slba : Nat) (s : SZDStatus) (out : Nat)
  deriving DecidableEq, Repr

/-- The status a recorded call returned. -/
def ChannelCall.status : ChannelCall → SZDStatus
  | .DirectAppend _ _ _ _ s _ => s
  | .FlushBufferSection _ _ _ _ _ s _ => s
  | .FlushBuffer _ _ s _ => s
  | .DirectRead _ _ _ s => s
  | .ReadIntoBuffer _ _ _ _ s => s
  | .ResetZone _ s => s
  | .ZoneHead _ s _ => s

/-- The device behind the channel together with the journal of every channel
call made so far (oldest first). -/
structure Device (σ : Type) where
  state : σ
  calls : List ChannelCall

/-- What a primitive with a `uint64_t` out-parameter hands back. -/
structure HeadReply (σ : Type) where
  status : SZDStatus
  head : Nat
  dev : Device σ

/-- What `ResetZone` hands back. -/
structure StatusReply (σ : Type) where
  status : SZDStatus
  dev : Device σ

/-- What `DirectRead` hands back. -/
structure DataReply (σ : Type) where
  status : SZDStatus
  data : List Nat
  dev : Device σ

/-- What `ReadIntoBuffer` hands back. -/
structure BufferReply (σ : Type) where
  status : SZDStatus
  buffer : SZDBuffer
  dev : Device σ

variable {σ : Type}

/-- The call `channel_->DirectAppend(&write_head, data, size, alligned)`. -/
def Device.DirectAppend (dev : Device σ) (ch : SZDChannel σ) (write_head : Nat)
    (data : List Nat) (size : Nat) (alligned : Bool) : HeadReply σ :=
  let r := ch.DirectAppend dev.state write_head data size alligned
  { status := r.1
    head := wrap64 r.2.1
    dev := { state := r.2.2
             calls := dev.calls ++
               [ChannelCall.DirectAppend write_head data size alligned r.1 (wrap64 r.2.1)] } }

/-- The call `channel_->FlushBufferSection(&write_head, buffer, addr, size, alligned)`. -/
def Device.FlushBufferSection (dev : Device σ) (ch : SZDChannel σ) (write_head : Nat)
    (buffer : SZDBuffer) (addr size : Nat) (alligned : Bool) : HeadReply σ :=
  let r := ch.FlushBufferSection dev.state write_head buffer addr size alligned
  { status := r.1
    head := wrap64 r.2.1
    dev := { state := r.2.2
             calls := dev.calls ++
               [ChannelCall.FlushBufferSection write_head buffer addr size alligned r.1
                 (wrap64 r.2.1)] } }

/-- The call `channel_->FlushBuffer(&write_head, buffer)`. -/
def Device.FlushBuffer (dev : Device σ) (ch : SZDChannel σ) (write_head : Nat)
    (buffer : SZDBuffer) : HeadReply σ :=
  let r := ch.FlushBuffer dev.state write_head buffer
  { status := r.1
    head := wrap64 r.2.1
    dev := { state := r.2.2
             calls := dev.calls ++
               [ChannelCall.FlushBuffer write_head buffer r.1 (wrap64 r.2.1)] } }

/-- The call `channel_->DirectRead(lba, data, size, alligned)`. -/
def Device.DirectRead (dev : Device σ) (ch : SZDChannel σ) (lba : Nat) (data : List Nat)
    (size : Nat) (alligned : Bool) : DataReply σ :=
  let r := ch.DirectRead dev.state lba data size alligned
  { status := r.1
    data := r.2.1
    dev := { state := r.2.2
             calls := dev.calls ++ [ChannelCall.DirectRead lba size alligned r.1] } }

/-- The call `channel_->ReadIntoBuffer(lba, buffer, addr, size, alligned)`. -/
def Device.ReadIntoBuffer (dev : Device σ) (ch : SZDChannel σ) (lba : Nat)
    (buffer : SZDBuffer) (addr size : Nat) (alligned : Bool) : BufferReply σ :=
  let r := ch.ReadIntoBuffer dev.state lba buffer addr size alligned
  { status := r.1
    buffer := r.2.1
    dev := { state := r.2.2
             calls := dev.calls ++ [ChannelCall.ReadIntoBuffer lba addr size alligned r.1] } }

/-- The call `channel_->ResetZone(slba)`. -/
def Device.ResetZone (dev : Device σ) (ch : SZDChannel σ) (slba : Nat) : StatusReply σ :=
  let r := ch.ResetZone dev.state slba
  { status := r.1
    dev := { state := r.2
             calls := dev.calls ++ [ChannelCall.ResetZone slba r.1] } }

/-- The call `channel_->ZoneHead(slba, &zone_head)`. -/
def Device.ZoneHead (dev : Device σ) (ch : SZDChannel σ) (slba zone_head : Nat) :
    HeadReply σ :=
  let r := ch.ZoneHead dev.state slba zone_head
  { status := r.1
    head := wrap64 r.2.1
    dev := { state := r.2.2
             calls := dev.calls ++ [ChannelCall.ZoneHead slba r.1 (wrap64 r.2.1)] } }

/-! ## The log -/

/-- The fields of `SZDOnceLog` (those inherited from `SZDLog` included). -/
structure SZDOnceLog where
  min_zone_head_ : Nat
  max_zone_head_ : Nat
  zone_size_ : Nat
  write_head_ : Nat
  zone_head_ : Nat
  deriving DecidableEq, Repr

/-- The constructor `SZDOnceLog::SZDOnceLog`.  The initialisation done by the
base class `SZDLog` (geometry fields, `write_head_ = min_zone_head`) is
modelled from the spec, `szd_log.h` not being part of the sources at hand.  The
two divisions by `info.zone_size` are those of the `register_channel` call. -/
def SZDOnceLog.construct (info : DeviceInfo) (min_zone_head max_zone_head : Nat) :
    Except Fault SZDOnceLog :=
  if info.zone_size = 0 then
    .error Fault.DivisionByZero
  else
    .ok { min_zone_head_ := min_zone_head
          max_zone_head_ := max_zone_head
          zone_size_ := info.zone_size
          write_head_ := min_zone_head
          zone_head_ := min_zone_head }

/-- Modelled from the spec: `SpaceLeft(size)` is
`size ≤ max_zone_head - write_head`, over `uint64_t`; the body of
`SZDOnceLog::SpaceLeft` (in `szd_once_log.h`) is not part of the sources at
hand. -/
def SZDOnceLog.SpaceLeft (log : SZDOnceLog) (size : Nat) : Bool :=
  decide (size ≤ sub64 log.max_zone_head_ log.write_head_)

/-- The predicate `Empty()`: `write_head_ == min_zone_head_` (the body the sibling header
`szd_circular_log.h` gives, which is also what the spec states for every log). -/
def SZDOnceLog.Empty (log : SZDOnceLog) : Bool :=
  decide (log.write_head_ = log.min_zone_head_)

/-- Result of an `Append`: returned status, the log and the device afterwards,
and the cell `*lbas` afterwards (`none` when `lbas == nullptr`). -/
structure AppendOutcome (σ : Type) where
  status : SZDStatus
  log : SZDOnceLog
  dev : Device σ
  lbas : Option Nat

/-- Result of `ResetAll` or `RecoverPointers`. -/
structure Outcome (σ : Type) where
  status : SZDStatus
  log : SZDOnceLog
  dev : Device σ

/-- Result of a raw `Read`. -/
structure ReadOutcome (σ : Type) where
  status : SZDStatus
  log : SZDOnceLog
  dev : Device σ
  data : List Nat

/-- Result of a buffer `Read`. -/
structure BufferReadOutcome (σ : Type) where
  status : SZDStatus
  log : SZDOnceLog
  dev : Device σ
  buffer : SZDBuffer

/-- The overload `SZDOnceLog::Append(const char *data, size_t size, uint64_t *lbas, bool alligned)`. -/
def SZDOnceLog.Append (ch : SZDChannel σ) (log : SZDOnceLog) (dev : Device σ)
    (data : List Nat) (size : Nat) (lbas : Option Nat) (alligned : Bool) :
    Except Fault (AppendOutcome σ) :=
  if !log.SpaceLeft size then
    .ok { status := SZDStatus.IOError, log := log, dev := dev, lbas := lbas }
  else
    let write_head_old := log.write_head_
    let r := dev.DirectAppend ch log.write_head_ data size alligned
    if log.zone_size_ = 0 then
      .error Fault.DivisionByZero
    else
      let write_head_ := r.head
      let zone_head_ := mul64 (write_head_ / log.zone_size_) log.zone_size_
      .ok { status := r.status
            log := { log with write_head_ := write_head_, zone_head_ := zone_head_ }
            dev := r.dev
            lbas := lbas.map (fun _ => sub64 write_head_ write_head_old) }

/-- The overload `SZDOnceLog::Append(const std::string string, uint64_t *lbas)`; the
alignment flag is left to its default, `true`. -/
def SZDOnceLog.Append_string (ch : SZDChannel σ) (log : SZDOnceLog) (dev : Device σ)
    (string : List Nat) (lbas : Option Nat) : Except Fault (AppendOutcome σ) :=
  log.Append ch dev string string.length lbas true

/-- The overload
`SZDOnceLog::Append(const SZDBuffer &buffer, size_t addr, size_t size, uint64_t *lbas, bool alligned)`. -/
def SZDOnceLog.Append_section (ch : SZDChannel σ) (log : SZDOnceLog) (dev : Device σ)
    (buffer : SZDBuffer) (addr size : Nat) (lbas : Option Nat) (alligned : Bool) :
    Except Fault (AppendOutcome σ) :=
  if !log.SpaceLeft size then
    .ok { status := SZDStatus.IOError, log := log, dev := dev, lbas := lbas }
  else
    let write_head_old := log.write_head_
    let r := dev.FlushBufferSection ch log.write_head_ buffer addr size alligned
    if log.zone_size_ = 0 then
      .error Fault.DivisionByZero
    else
      let write_head_ := r.head
      let zone_head_ := mul64 (write_head_ / log.zone_size_) log.zone_size_
      .ok { status := r.status
            log := { log with write_head_ := write_head_, zone_head_ := zone_head_ }
            dev := r.dev
            lbas := lbas.map (fun _ => sub64 write_head_ write_head_old) }

/-- The overload `SZDOnceLog::Append(const SZDBuffer &buffer, uint64_t *lbas)`. -/
def SZDOnceLog.Append_buffer (ch : SZDChannel σ) (log : SZDOnceLog) (dev : Device σ)
    (buffer : SZDBuffer) (lbas : Option Nat) : Except Fault (AppendOutcome σ) :=
  let size := buffer.GetBufferSize
  if !log.SpaceLeft size then
    .ok { status := SZDStatus.IOError, log := log, dev := dev, lbas := lbas }
  else
    let write_head_old := log.write_head_
    let r := dev.FlushBuffer ch log.write_head_ buffer
    if log.zone_size_ = 0 then
      .error Fault.DivisionByZero
    else
      let write_head_ := r.head
      let zone_head_ := mul64 (write_head_ / log.zone_size_) log.zone_size_
      .ok { status := r.status
            log := { log with write_head_ := write_head_, zone_head_ := zone_head_ }
            dev := r.dev
            lbas := lbas.map (fun _ => sub64 write_head_ write_head_old) }

/-- The overload `SZDOnceLog::Read(char *data, uint64_t lba, uint64_t size, bool alligned)`. -/
def SZDOnceLog.Read (ch : SZDChannel σ) (log : SZDOnceLog) (dev : Device σ)
    (data : List Nat) (lba size : Nat) (alligned : Bool) : ReadOutcome σ :=
  let r := dev.DirectRead ch lba data size alligned
  { status := r.status, log := log, dev := r.dev, data := r.data }

/-- The overload `SZDOnceLog::Read(SZDBuffer *buffer, uint64_t lba, uint64_t size, bool alligned)`. -/
def SZDOnceLog.Read_buffer (ch : SZDChannel σ) (log : SZDOnceLog) (dev : Device σ)
    (buffer : SZDBuffer) (lba size : Nat) (alligned : Bool) : BufferReadOutcome σ :=
  let r := dev.ReadIntoBuffer ch lba buffer 0 size alligned
  { status := r.status, log := log, dev := r.dev, buffer := r.buffer }

/-- The overload
`SZDOnceLog::Read(SZDBuffer *buffer, size_t addr, size_t size, uint64_t lba, bool alligned)`. -/
def SZDOnceLog.Read_section (ch : SZDChannel σ) (log : SZDOnceLog) (dev : Device σ)
    (buffer : SZDBuffer) (addr size lba : Nat) (alligned : Bool) : BufferReadOutcome σ :=
  let r := dev.ReadIntoBuffer ch lba buffer addr size alligned
  { status := r.status, log := log, dev := r.dev, buffer := r.buffer }

/-- The `for` loop of `SZDOnceLog::ResetAll`, entered at `slba`.  The result is
`some s` when the body returned `s` from inside the loop and `none` when the
loop ran to its end. -/
def SZDOnceLog.ResetAllLoop (ch : SZDChannel σ) (log : SZDOnceLog) :
    Nat → Nat → Device σ → Except Fault (Option SZDStatus × Device σ)
  | 0, _, _ => .error Fault.OutOfFuel
  | fuel + 1, slba, dev =>
    if slba < log.max_zone_head_ then
      let r := dev.ResetZone ch slba
      if r.status ≠ SZDStatus.Success then
        .ok (some r.status, r.dev)
      else
        SZDOnceLog.ResetAllLoop ch log fuel (add64 slba log.zone_size_) r.dev
    else
      .ok (none, dev)

/-- The method `SZDOnceLog::ResetAll`; `fuel` bounds the number of loop tests. -/
def SZDOnceLog.ResetAll (fuel : Nat) (ch : SZDChannel σ) (log : SZDOnceLog)
    (dev : Device σ) : Except Fault (Outcome σ) :=
  match SZDOnceLog.ResetAllLoop ch log fuel log.min_zone_head_ dev with
  | .error e => .error e
  | .ok (some s, dev1) => .ok { status := s, log := log, dev := dev1 }
  | .ok (none, dev1) =>
    .ok { status := SZDStatus.Success
          log := { log with
                   write_head_ := log.min_zone_head_
                   zone_head_ := log.min_zone_head_ }
          dev := dev1 }

/-- How the `for` loop of `SZDOnceLog::RecoverPointers` was left. -/
structure ScanExit (σ : Type) where
  returned : Option SZDStatus
  write_head : Nat
  dev : Device σ

/-- The `for` loop of `SZDOnceLog::RecoverPointers`, entered at `slba` with the
locals `write_head` and `zone_head` (the local `old_zone_head` is never read).
`returned` is `some s` when the body returned `s` from inside the loop. -/
def SZDOnceLog.RecoverPointersLoop (ch : SZDChannel σ) (log : SZDOnceLog) :
    Nat → Nat → Nat → Nat → Device σ → Except Fault (ScanExit σ)
  | 0, _, _, _, _ => .error Fault.OutOfFuel
  | fuel + 1, slba, write_head, zone_head, dev =>
    if slba < log.max_zone_head_ then
      let r := dev.ZoneHead ch slba zone_head
      if r.status ≠ SZDStatus.Success then
        .ok { returned := some r.status, write_head := write_head, dev := r.dev }
      else
        let write_head1 := if r.head > slba then r.head else write_head
        if write_head1 > log.min_zone_head_ ∧ r.head = slba then
          .ok { returned := none, write_head := write_head1, dev := r.dev }
        else
          SZDOnceLog.RecoverPointersLoop ch log fuel (add64 slba log.zone_size_)
            write_head1 r.head r.dev
    else
      .ok { returned := none, write_head := write_head, dev := dev }

/-- The method `SZDOnceLog::RecoverPointers`; `fuel` bounds the number of loop tests. -/
def SZDOnceLog.RecoverPointers (fuel : Nat) (ch : SZDChannel σ) (log : SZDOnceLog)
    (dev : Device σ) : Except Fault (Outcome σ) :=
  match SZDOnceLog.RecoverPointersLoop ch log fuel log.min_zone_head_
      log.min_zone_head_ log.min_zone_head_ dev with
  | .error e => .error e
  | .ok x =>
    match x.returned with
    | some s => .ok { status := s, log := log, dev := x.dev }
    | none =>
      if log.zone_size_ = 0 then
        .error Fault.DivisionByZero
      else
        .ok { status := SZDStatus.Success
              log := { log with
                       write_head_ := x.write_head
                       zone_head_ := mul64 (x.write_head / log.zone_size_) log.zone_size_ }
              dev := x.dev }

/-! ## Uniform access to the four `Append` overloads -/

/-- The arguments of one `Append` call, by overload. -/
inductive AppendArgs where
  | ofData (data : List Nat) (size : Nat) (lbas : Option Nat) (alligned : Bool)
  | ofString (string : List Nat) (lbas : Option Nat)
  | ofSection (buffer : SZDBuffer) (addr size : Nat) (lbas : Option Nat)
      (alligned : Bool)
  | ofBuffer (buffer : SZDBuffer) (lbas : Option Nat)
  deriving DecidableEq, Repr

/-- The size an `Append` call hands to `SpaceLeft`. -/
def AppendArgs.size : AppendArgs → Nat
  | .ofData _ size _ _ => size
  | .ofString string _ => string.length
  | .ofSection _ _ size _ _ => size
  | .ofBuffer buffer _ => buffer.GetBufferSize

/-- The cell `*lbas` handed to an `Append` call (`none` for `nullptr`). -/
def AppendArgs.lbas : AppendArgs → Option Nat
  | .ofData _ _ lbas _ => lbas
  | .ofString _ lbas => lbas
  | .ofSection _ _ _ lbas _ => lbas
  | .ofBuffer _ lbas => lbas

/-- Overload resolution: the `Append` body selected by the arguments. -/
def SZDOnceLog.AppendWith (ch : SZDChannel σ) (log : SZDOnceLog) (dev : Device σ) :
    AppendArgs → Except Fault (AppendOutcome σ)
  | .ofData data size lbas alligned => log.Append ch dev data size lbas alligned
  | .ofString string lbas => log.Append_string ch dev string lbas
  | .ofSection buffer addr size lbas alligned =>
    log.Append_section ch dev buffer addr size lbas alligned
  | .ofBuffer buffer lbas => log.Append_buffer ch dev buffer lbas

/-- The channel call that the `Append` body selected by the arguments makes
once its capacity check has passed, at write head `write_head`. -/
def Device.appendCall (dev : Device σ) (ch : SZDChannel σ) (write_head : Nat) :
    AppendArgs → HeadReply σ
  | .ofData data size _ alligned => dev.DirectAppend ch write_head data size alligned
  | .ofString string _ => dev.DirectAppend ch write_head string string.length true
  | .ofSection buffer addr size _ alligned =>
    dev.FlushBufferSection ch write_head buffer addr size alligned
  | .ofBuffer buffer _ => dev.FlushBuffer ch write_head buffer

/-! ## Geometry -/

/-- The geometry precondition of the data model: a positive zone size and a
range `[min_zone_head, max_zone_head)` of `uint64_t` bounds that are both
multiples of the zone size. -/
def SZDOnceLog.Geometry (log : SZDOnceLog) : Prop :=
  0 < log.zone_size_ ∧ log.min_zone_head_ ≤ log.max_zone_head_ ∧
    log.max_zone_head_ < 2 ^ 64 ∧ log.zone_size_ ∣ log.min_zone_head_ ∧
    log.zone_size_ ∣ log.max_zone_head_

instance (log : SZDOnceLog) : Decidable log.Geometry := by
  unfold SZDOnceLog.Geometry; infer_instance

/-- Number of zones in the range of the log. -/
def SZDOnceLog.zones (log : SZDOnceLog) : Nat :=
  (log.max_zone_head_ - log.min_zone_head_) / log.zone_size_

/-- The journal entries of `n` successful `ResetZone` calls, one for each of the
zone starts `slba + i * zone_size`, `i < n`, in increasing address order. -/
def resetCalls (zone_size slba n : Nat) : List ChannelCall :=
  (List.range n).map (fun i => ChannelCall.ResetZone (slba + i * zone_size) SZDStatus.Success)

/-! ## A small simulated device, used for concrete runs -/

/-- Configuration of the simulated device: zones of `zone_size` units; an append is
padded to a multiple of `granule`; a call that names a zone start listed in `broken`
fails; when `torn` is `some k` an append writes `k` units and then fails.  The state of
the device is its frontier: the range is written sequentially up to it. -/
structure SimConfig where
  zone_size : Nat
  granule : Nat
  broken : List Nat
  torn : Option Nat
  deriving DecidableEq, Repr

/-- Size `size` rounded up to a multiple of `granule`. -/
def SimConfig.padded (cfg : SimConfig) (size : Nat) : Nat :=
  ((size + cfg.granule - 1) / cfg.granule) * cfg.granule

/-- Appending `size` units at `write_head` on the simulated device. -/
def SimConfig.append (cfg : SimConfig) (write_head size : Nat) : SZDStatus × Nat × Nat :=
  match cfg.torn with
  | some k => (SZDStatus.IOError, write_head + k, write_head + k)
  | none => (SZDStatus.Success, write_head + cfg.padded size, write_head + cfg.padded size)

/-- Write pointer of the zone starting at `slba` when the range is written
sequentially up to `frontier`. -/
def sequentialPointer (zone_size frontier slba : Nat) : Nat :=
  if frontier ≤ slba then slba
  else if frontier < slba + zone_size then frontier
  else slba + zone_size

/-- The channel of the simulated device. -/
def simChannel (cfg : SimConfig) : SZDChannel Nat where
  DirectAppend := fun _ write_head _ size _ => cfg.append write_head size
  FlushBufferSection := fun _ write_head _ _ size _ => cfg.append write_head size
  FlushBuffer := fun _ write_head buffer => cfg.append write_head buffer.GetBufferSize
  DirectRead := fun frontier _ data _ _ => (SZDStatus.Success, data, frontier)
  ReadIntoBuffer := fun frontier _ buffer _ _ _ => (SZDStatus.Success, buffer, frontier)
  ResetZone := fun frontier slba =>
    if slba ∈ cfg.broken then (SZDStatus.DeviceError, frontier)
    else (SZDStatus.Success, min frontier slba)
  ZoneHead := fun frontier slba zone_head =>
    if slba ∈ cfg.broken then (SZDStatus.DeviceError, zone_head, frontier)
    else (SZDStatus.Success, sequentialPointer cfg.zone_size frontier slba, frontier)

/-- A simulated device without padding and without failures. -/
def plainSim (zone_size : Nat) : SimConfig :=
  { zone_size := zone_size, granule := 1, broken := [], torn := none }

/-- A simulated device whose second zone (start address 4) cannot be reset or queried. -/
def brokenSim : SimConfig :=
  { zone_size := 4, granule := 1, broken := [4], torn := none }

/-- A simulated device on which every append fails after writing five units. -/
def tornSim : SimConfig :=
  { zone_size := 4, granule := 1, broken := [], torn := some 5 }

/-- A simulated device with zones of three units that pads appends to two units. -/
def paddingSim : SimConfig :=
  { zone_size := 3, granule := 2, broken := [], torn := none }

/-- The simulated device written up to `frontier`, with an empty call journal. -/
def simDevice (frontier : Nat) : Device Nat :=
  { state := frontier, calls := [] }

/-- An empty log over `[min_zone_head, max_zone_head)`. -/
def emptyLog (zone_size min_zone_head max_zone_head : Nat) : SZDOnceLog :=
  { min_zone_head_ := min_zone_head
    max_zone_head_ := max_zone_head
    zone_size_ := zone_size
    write_head_ := min_zone_head
    zone_head_ := min_zone_head }

/-- A full log over two zones of four units, used for C1. -/
def fullLog : SZDOnceLog :=
  { min_zone_head_ := 0, max_zone_head_ := 8, zone_size_ := 4, write_head_ := 8,
    zone_head_ := 8 }

/-- The channel answers of a range written sequentially from `min_zone_head_` up to `W`:
on every device state satisfying `P`, `ZoneHead` for a zone start of the range succeeds,
reports the pointer of that zone and leaves a state satisfying `P`. -/
def SequentiallyWritten (ch : SZDChannel σ) (log : SZDOnceLog) (W : Nat) (P : σ → Prop) :
    Prop :=
  ∀ st, P st → ∀ i, i < log.zones → ∀ zone_head,
    (ch.ZoneHead st (log.min_zone_head_ + i * log.zone_size_) zone_head).1 =
        SZDStatus.Success ∧
      (ch.ZoneHead st (log.min_zone_head_ + i * log.zone_size_) zone_head).2.1 =
        sequentialPointer log.zone_size_ W (log.min_zone_head_ + i * log.zone_size_) ∧
      P (ch.ZoneHead st (log.min_zone_head_ + i * log.zone_size_) zone_head).2.2

/-! ## Runs of the log -/

/-- The pairs of log and device reachable from `log0`, `dev0` by any sequence of `Append`
(every overload, whatever its status), `ResetAll` and `RecoverPointers` calls that
return. -/
inductive Reachable (ch : SZDChannel σ) (log0 : SZDOnceLog) (dev0 : Device σ) :
    SZDOnceLog → Device σ → Prop where
  | start : Reachable ch log0 dev0 log0 dev0
  | append {log : SZDOnceLog} {dev : Device σ} (args : AppendArgs) (r : AppendOutcome σ) :
      Reachable ch log0 dev0 log dev → log.AppendWith ch dev args = .ok r →
      Reachable ch log0 dev0 r.log r.dev
  | resetAll {log : SZDOnceLog} {dev : Device σ} (fuel : Nat) (r : Outcome σ) :
      Reachable ch log0 dev0 log dev → log.ResetAll fuel ch dev = .ok r →
      Reachable ch log0 dev0 r.log r.dev
  | recoverPointers {log : SZDOnceLog} {dev : Device σ} (fuel : Nat) (r : Outcome σ) :
      Reachable ch log0 dev0 log dev → log.RecoverPointers fuel ch dev = .ok r →
      Reachable ch log0 dev0 r.log r.dev

/-- One successful append of a run: the arguments, the amount by which the channel
advanced the write head, and the cell `*lbas` after the call. -/
structure AppendStep where
  args : AppendArgs
  advance : Nat
  lbas : Option Nat

/-- Runs of successful appends: `SuccessfulAppends ch log dev steps log1 dev1` holds when
the `Append` calls of `steps`, made in turn from `log` and `dev`, all return `Success`, the
channel advancing the write head by `advance` each time, and end in `log1` and `dev1`. -/
inductive SuccessfulAppends (ch : SZDChannel σ) :
    SZDOnceLog → Device σ → List AppendStep → SZDOnceLog → Device σ → Prop where
  | done (log : SZDOnceLog) (dev : Device σ) : SuccessfulAppends ch log dev [] log dev
  | step {log log1 : SZDOnceLog} {dev dev1 : Device σ} {steps : List AppendStep}
      (args : AppendArgs) (advance : Nat) (r : AppendOutcome σ) :
      log.AppendWith ch dev args = .ok r → r.status = SZDStatus.Success →
      (dev.appendCall ch log.write_head_ args).head = log.write_head_ + advance →
      SuccessfulAppends ch r.log r.dev steps log1 dev1 →
      SuccessfulAppends ch log dev
        ({ args := args, advance := advance, lbas := r.lbas } :: steps) log1 dev1

/-- The channel interface in the words of claim C7: an append primitive leaves the write
head advanced by at least the requested size, and `ZoneHead` for the zone starting at `s`
reports a pointer in `[s, s + zone_size_]`. -/
def StatedInterface (ch : SZDChannel σ) (log : SZDOnceLog) : Prop :=
  (∀ st w data size alligned, w + size ≤ (ch.DirectAppend st w data size alligned).2.1) ∧
  (∀ st w buffer addr size alligned,
    w + size ≤ (ch.FlushBufferSection st w buffer addr size alligned).2.1) ∧
  (∀ st w buffer, w + buffer.GetBufferSize ≤ (ch.FlushBuffer st w buffer).2.1) ∧
  (∀ st s zone_head, s ≤ (ch.ZoneHead st s zone_head).2.1 ∧
    (ch.ZoneHead st s zone_head).2.1 ≤ s + log.zone_size_)

/-- A channel whose appends stay inside the range of the log: called at a write head `w` of
the range with a size that passed the capacity check, an append primitive leaves the write
head between `w` and `max_zone_head_`. -/
def AppendsWithinRange (ch : SZDChannel σ) (log : SZDOnceLog) : Prop :=
  ∀ (dev : Device σ) (w : Nat) (args : AppendArgs),
    log.min_zone_head_ ≤ w → w ≤ log.max_zone_head_ → args.size ≤ log.max_zone_head_ - w →
    w ≤ (dev.appendCall ch w args).head ∧
      (dev.appendCall ch w args).head ≤ log.max_zone_head_

/-- A channel whose successful `ZoneHead` for the `i`-th zone of the log, starting at `s`,
reports a pointer in `[s, s + zone_size_]`. -/
def ZoneHeadsWithinZone (ch : SZDChannel σ) (log : SZDOnceLog) : Prop :=
  ∀ (dev : Device σ) (i zone_head : Nat), i < log.zones →
    (dev.ZoneHead ch (log.min_zone_head_ + i * log.zone_size_) zone_head).status =
      SZDStatus.Success →
    log.min_zone_head_ + i * log.zone_size_ ≤
        (dev.ZoneHead ch (log.min_zone_head_ + i * log.zone_size_) zone_head).head ∧
      (dev.ZoneHead ch (log.min_zone_head_ + i * log.zone_size_) zone_head).head ≤
        log.min_zone_head_ + i * log.zone_size_ + log.zone_size_

/-! ## Journals of the zone scans -/

/-- The zone start that a recorded `ResetZone` call names. -/
def ChannelCall.resetZoneAt : ChannelCall → Option Nat
  | .ResetZone slba _ => some slba
  | _ => none

/-- The zone start that a recorded `ZoneHead` call names. -/
def ChannelCall.zoneHeadAt : ChannelCall → Option Nat
  | .ZoneHead slba _ _ => some slba
  | _ => none

/-- The journal entries of successful `ZoneHead` queries of the first `n` zones of the log,
in increasing address order, the zone starting at `s` reporting the pointer `p s`. -/
def zoneHeadCalls (log : SZDOnceLog) (p : Nat → Nat) (n : Nat) : List ChannelCall :=
  (List.range n).map (fun i =>
    ChannelCall.ZoneHead (log.min_zone_head_ + i * log.zone_size_) SZDStatus.Success
      (p (log.min_zone_head_ + i * log.zone_size_)))

/-- A device with per-zone write pointers `p` whose queries all succeed: on every device
whose state satisfies `P`, `ZoneHead` for a zone start `s` of the range returns `Success`,
leaves `p s` in the out-parameter and leaves a state satisfying `P`. -/
def ReportsPointers (ch : SZDChannel σ) (log : SZDOnceLog) (p : Nat → Nat) (P : σ → Prop) :
    Prop :=
  ∀ (dev : Device σ), P dev.state → ∀ i, i < log.zones → ∀ zone_head,
    (dev.ZoneHead ch (log.min_zone_head_ + i * log.zone_size_) zone_head).status =
        SZDStatus.Success ∧
      (dev.ZoneHead ch (log.min_zone_head_ + i * log.zone_size_) zone_head).head =
        p (log.min_zone_head_ + i * log.zone_size_) ∧
      P (dev.ZoneHead ch (log.min_zone_head_ + i * log.zone_size_) zone_head).dev.state

/-- The value the local `write_head` of `RecoverPointers` holds once the first `n` zones have
been scanned without a `break`, for per-zone write pointers `p`. -/
def scanHead (log : SZDOnceLog) (p : Nat → Nat) : Nat → Nat
  | 0 => log.min_zone_head_
  | n + 1 =>
    if p (log.min_zone_head_ + n * log.zone_size_) > log.min_zone_head_ + n * log.zone_size_
    then p (log.min_zone_head_ + n * log.zone_size_)
    else scanHead log p n

/-- The `break` of `RecoverPointers` is taken at the zone of index `n`, for per-zone write
pointers `p`. -/
def scanBreaks (log : SZDOnceLog) (p : Nat → Nat) (n : Nat) : Prop :=
  scanHead log p (n + 1) > log.min_zone_head_ ∧
    p (log.min_zone_head_ + n * log.zone_size_) = log.min_zone_head_ + n * log.zone_size_

/-- A device that answers every `ZoneHead` query from a table `p` of per-zone write
pointers and accepts every other call without effect. -/
def tableChannel (p : Nat → Nat) : SZDChannel Nat where
  DirectAppend := fun st write_head _ _ _ => (SZDStatus.Success, write_head, st)
  FlushBufferSection := fun st write_head _ _ _ _ => (SZDStatus.Success, write_head, st)
  FlushBuffer := fun st write_head _ => (SZDStatus.Success, write_head, st)
  DirectRead := fun st _ data _ _ => (SZDStatus.Success, data, st)
  ReadIntoBuffer := fun st _ buffer _ _ _ => (SZDStatus.Success, buffer, st)
  ResetZone := fun st _ => (SZDStatus.Success, st)
  ZoneHead := fun st slba _ => (SZDStatus.Success, p slba, st)

/-- Write pointers of four zones of four units: the first zone empty, the second written up
to 7, the third empty, the fourth written up to 14. -/
def gappedPointers (s : Nat) : Nat :=
  if s = 4 then 7 else if s = 12 then 14 else s

/-- What the caller of the scan of `RecoverPointers` observes of its exit, the call journal
left aside: the early return, the local `write_head` and the state of the device. -/
def ScanExit.view (x : ScanExit σ) : Option SZDStatus × Nat × σ :=
  (x.returned, x.write_head, x.dev.state)

/-! # Theorems -/

/-! ## C1: an append without space -/

/-- An overload whose capacity check fails returns `IOError` at once. -/
theorem appendWith_of_no_space (ch : SZDChannel σ) (log : SZDOnceLog) (dev : Device σ)
    (args : AppendArgs) (hfull : log.SpaceLeft args.size = false) :
    log.AppendWith ch dev args =
      .ok { status := SZDStatus.IOError, log := log, dev := dev, lbas := args.lbas } := by
  cases args <;>
    simp_all [SZDOnceLog.AppendWith, SZDOnceLog.Append, SZDOnceLog.Append_string,
      SZDOnceLog.Append_section, SZDOnceLog.Append_buffer, AppendArgs.size, AppendArgs.lbas]

/-- C1. For every log state and every `Append` overload: when `SpaceLeft` is false
for the size being appended (the buffer size for the whole-buffer overload), `Append`
returns `IOError`, the device and its call journal are untouched (no channel call is
made), the log (so `write_head_` and `zone_head_`) is unchanged and the cell behind
`lbas` keeps its content. -/
theorem append_without_space (ch : SZDChannel σ) (log : SZDOnceLog) (dev : Device σ)
    (args : AppendArgs) (hfull : log.SpaceLeft args.size = false) :
    log.AppendWith ch dev args =
        .ok { status := SZDStatus.IOError, log := log, dev := dev, lbas := args.lbas } ∧
      ∀ r, log.AppendWith ch dev args = .ok r →
        r.status = SZDStatus.IOError ∧ r.dev.calls = dev.calls ∧ r.dev.state = dev.state ∧
          r.log.write_head_ = log.write_head_ ∧ r.log.zone_head_ = log.zone_head_ ∧
          r.lbas = args.lbas := by
  have h := appendWith_of_no_space ch log dev args hfull
  refine ⟨h, fun r hr => ?_⟩
  rw [h] at hr
  cases hr
  exact ⟨rfl, rfl, rfl, rfl, rfl, rfl⟩

/-- C1 at a concrete input: a two-unit raw append to a full log over `[0, 8)`. -/
theorem append_without_space_witness :
    fullLog.SpaceLeft (AppendArgs.ofData [1, 2] 2 (some 7) true).size = false ∧
    fullLog.AppendWith (simChannel (plainSim 4)) (simDevice 8)
        (AppendArgs.ofData [1, 2] 2 (some 7) true) =
      .ok { status := SZDStatus.IOError, log := fullLog, dev := simDevice 8,
            lbas := some 7 } :=
  ⟨by decide, (append_without_space (simChannel (plainSim 4)) fullLog (simDevice 8)
    (AppendArgs.ofData [1, 2] 2 (some 7) true) (by decide)).1⟩

/-! ## Arithmetic facts -/

theorem wrap64_lt (x : Nat) : wrap64 x < 2 ^ 64 := by
  unfold wrap64; omega

theorem sub64_of_le {a b : Nat} (hab : b ≤ a) (ha : a < 2 ^ 64) : sub64 a b = a - b := by
  unfold sub64; omega

theorem mul64_round_down {w z : Nat} (hw : w < 2 ^ 64) : mul64 (w / z) z = w / z * z := by
  unfold mul64
  have := Nat.div_mul_le_self w z
  exact Nat.mod_eq_of_lt (by omega)

theorem appendCall_head_lt (ch : SZDChannel σ) (dev : Device σ) (w : Nat) (args : AppendArgs) :
    (dev.appendCall ch w args).head < 2 ^ 64 := by
  cases args <;> exact wrap64_lt _

/-- Every overload that passes its capacity check makes its channel call and
then updates the cursors from the value left in `write_head_`. -/
theorem appendWith_of_space (ch : SZDChannel σ) (log : SZDOnceLog) (dev : Device σ)
    (args : AppendArgs) (hzone : 0 < log.zone_size_)
    (hspace : log.SpaceLeft args.size = true) :
    log.AppendWith ch dev args =
      .ok { status := (dev.appendCall ch log.write_head_ args).status
            log := { log with
                     write_head_ := (dev.appendCall ch log.write_head_ args).head
                     zone_head_ :=
                       (dev.appendCall ch log.write_head_ args).head / log.zone_size_ *
                         log.zone_size_ }
            dev := (dev.appendCall ch log.write_head_ args).dev
            lbas := args.lbas.map
              (fun _ => sub64 (dev.appendCall ch log.write_head_ args).head log.write_head_) } := by
  have hz : log.zone_size_ ≠ 0 := by omega
  have hm := fun w => mul64_round_down (z := log.zone_size_) (wrap64_lt w)
  cases args <;>
    simp_all [SZDOnceLog.AppendWith, SZDOnceLog.Append, SZDOnceLog.Append_string,
      SZDOnceLog.Append_section, SZDOnceLog.Append_buffer, AppendArgs.size, AppendArgs.lbas,
      Device.appendCall, Device.DirectAppend, Device.FlushBufferSection, Device.FlushBuffer]

/-! ## C2: a successful append -/

/-- C2. For every log state with `zone_size_ > 0` and every `Append` overload whose
capacity check passes and whose channel call returns `Success` having moved the write
head from `w = write_head_` to `w1 ≥ w`: `Append` returns `Success`, afterwards
`write_head_ = w1` and `zone_head_ = (w1 / zone_size_) * zone_size_`, and the cell behind
`lbas` (when there is one) holds `w1 - w`. -/
theorem append_success (ch : SZDChannel σ) (log : SZDOnceLog) (dev : Device σ)
    (args : AppendArgs) (w1 : Nat) (hzone : 0 < log.zone_size_)
    (hspace : log.SpaceLeft args.size = true)
    (hstatus : (dev.appendCall ch log.write_head_ args).status = SZDStatus.Success)
    (hhead : (dev.appendCall ch log.write_head_ args).head = w1)
    (hadvance : log.write_head_ ≤ w1) :
    log.AppendWith ch dev args =
      .ok { status := SZDStatus.Success
            log := { log with
                     write_head_ := w1
                     zone_head_ := w1 / log.zone_size_ * log.zone_size_ }
            dev := (dev.appendCall ch log.write_head_ args).dev
            lbas := args.lbas.map (fun _ => w1 - log.write_head_) } := by
  have hlt := appendCall_head_lt ch dev log.write_head_ args
  rw [appendWith_of_space ch log dev args hzone hspace, hstatus, hhead]
  rw [hhead] at hlt
  rw [sub64_of_le hadvance hlt]

/-- C2 at the input named by the claim: an empty log over four zones of 64KB and a
channel that advances the write head by 102400. -/
theorem append_success_witness :
    (0 < (emptyLog 65536 0 262144).zone_size_ ∧
      (emptyLog 65536 0 262144).SpaceLeft (AppendArgs.ofData [] 102400 (some 0) true).size = true) ∧
    (emptyLog 65536 0 262144).AppendWith (simChannel (plainSim 65536)) (simDevice 0)
        (AppendArgs.ofData [] 102400 (some 0) true) =
      .ok { status := SZDStatus.Success
            log := { emptyLog 65536 0 262144 with
                     write_head_ := 102400
                     zone_head_ := 102400 / 65536 * 65536 }
            dev := ((simDevice 0).appendCall (simChannel (plainSim 65536)) 0
              (AppendArgs.ofData [] 102400 (some 0) true)).dev
            lbas := some (102400 - 0) } ∧
    102400 / 65536 * 65536 = 65536 :=
  ⟨⟨by decide, by decide⟩,
    append_success (simChannel (plainSim 65536)) (emptyLog 65536 0 262144) (simDevice 0)
      (AppendArgs.ofData [] 102400 (some 0) true) 102400 (by decide) (by decide) (by decide)
      (by decide) (by decide), by decide⟩

/-! ## The zone scan of `ResetAll` -/

theorem resetCalls_succ (zone_size slba n : Nat) :
    resetCalls zone_size slba (n + 1) =
      ChannelCall.ResetZone slba SZDStatus.Success ::
        resetCalls zone_size (slba + zone_size) n := by
  simp only [resetCalls, List.range_succ_eq_map, List.map_cons, List.map_map, Nat.zero_mul,
    Nat.add_zero, List.cons.injEq, true_and]
  apply List.map_congr_left
  intro i _
  simp only [Function.comp, Nat.succ_mul]
  congr 1
  omega

theorem geometry_range (log : SZDOnceLog) (hgeo : log.Geometry) :
    log.min_zone_head_ + log.zones * log.zone_size_ = log.max_zone_head_ := by
  obtain ⟨hz, hle, _, hmin, hmax⟩ := hgeo
  have hdvd : log.zone_size_ ∣ log.max_zone_head_ - log.min_zone_head_ :=
    Nat.dvd_sub' hmax hmin
  have := Nat.div_mul_cancel hdvd
  unfold SZDOnceLog.zones
  omega

/-- The loop of `ResetAll` entered at `slba` with `k` zones left: it ends within
`k + 1` loop tests, either after `k` successful resets or at the first failing one. -/
theorem resetAllLoop_run (ch : SZDChannel σ) (log : SZDOnceLog) (hzone : 0 < log.zone_size_)
    (hmax : log.max_zone_head_ < 2 ^ 64) :
    ∀ (k fuel slba : Nat) (dev : Device σ),
      slba + k * log.zone_size_ = log.max_zone_head_ → k < fuel →
      ∃ out dev1, SZDOnceLog.ResetAllLoop ch log fuel slba dev = .ok (out, dev1) ∧
        ((out = none ∧ dev1.calls = dev.calls ++ resetCalls log.zone_size_ slba k) ∨
          ∃ j e, j < k ∧ e ≠ SZDStatus.Success ∧ out = some e ∧
            dev1.calls = dev.calls ++ (resetCalls log.zone_size_ slba j ++
              [ChannelCall.ResetZone (slba + j * log.zone_size_) e])) := by
  intro k
  induction k with
  | zero =>
    intro fuel slba dev hk hfuel
    obtain ⟨f, rfl⟩ : ∃ f, fuel = f + 1 := ⟨fuel - 1, by omega⟩
    have hnot : ¬ slba < log.max_zone_head_ := by omega
    exact ⟨none, dev, by simp [SZDOnceLog.ResetAllLoop, hnot], Or.inl ⟨rfl, by simp [resetCalls]⟩⟩
  | succ k ih =>
    intro fuel slba dev hk hfuel
    obtain ⟨f, rfl⟩ : ∃ f, fuel = f + 1 := ⟨fuel - 1, by omega⟩
    have hmul : (k + 1) * log.zone_size_ = k * log.zone_size_ + log.zone_size_ :=
      Nat.succ_mul k _
    have hlt : slba < log.max_zone_head_ := by omega
    by_cases hs : (dev.ResetZone ch slba).status = SZDStatus.Success
    · have hnext : add64 slba log.zone_size_ = slba + log.zone_size_ := by
        unfold add64
        exact Nat.mod_eq_of_lt (by omega)
      obtain ⟨out, dev1, hrun, hcalls⟩ :=
        ih f (slba + log.zone_size_) (dev.ResetZone ch slba).dev (by omega) (by omega)
      have hjournal : (dev.ResetZone ch slba).dev.calls =
          dev.calls ++ [ChannelCall.ResetZone slba SZDStatus.Success] := by
        rw [← hs]; rfl
      refine ⟨out, dev1, by simp [SZDOnceLog.ResetAllLoop, hlt, hs, hnext, hrun], ?_⟩
      rcases hcalls with ⟨hout, hc⟩ | ⟨j, e, hj, he, hout, hc⟩
      · exact Or.inl ⟨hout, by rw [hc, hjournal, resetCalls_succ]; simp⟩
      · refine Or.inr ⟨j + 1, e, by omega, he, hout, ?_⟩
        have hadd : slba + (j + 1) * log.zone_size_ =
            slba + log.zone_size_ + j * log.zone_size_ := by
          rw [Nat.succ_mul]; omega
        rw [hc, hjournal, resetCalls_succ, hadd]
        simp
    · refine ⟨some (dev.ResetZone ch slba).status, (dev.ResetZone ch slba).dev,
        by simp [SZDOnceLog.ResetAllLoop, hlt, hs], Or.inr ⟨0, _, by omega, hs, rfl, ?_⟩⟩
      simp [resetCalls, Device.ResetZone]

theorem resetCalls_status (zone_size slba n : Nat) :
    ∀ c ∈ resetCalls zone_size slba n, c.status = SZDStatus.Success := by
  intro c hc
  simp only [resetCalls, List.mem_map] at hc
  obtain ⟨i, _, rfl⟩ := hc
  rfl

/-- The outcome of `ResetAll` under the geometry precondition: it ends within
`zones + 1` loop tests, either with every zone reset and the cursors rewound, or at the
first failing reset with the log untouched. -/
theorem resetAll_run (ch : SZDChannel σ) (log : SZDOnceLog) (dev : Device σ) (fuel : Nat)
    (hgeo : log.Geometry) (hfuel : log.zones < fuel) :
    ∃ r, log.ResetAll fuel ch dev = .ok r ∧
      ((r.status = SZDStatus.Success ∧
          r.log = { log with write_head_ := log.min_zone_head_,
                             zone_head_ := log.min_zone_head_ } ∧
          r.dev.calls = dev.calls ++ resetCalls log.zone_size_ log.min_zone_head_ log.zones) ∨
        ∃ j e, j < log.zones ∧ e ≠ SZDStatus.Success ∧ r.status = e ∧ r.log = log ∧
          r.dev.calls = dev.calls ++ (resetCalls log.zone_size_ log.min_zone_head_ j ++
            [ChannelCall.ResetZone (log.min_zone_head_ + j * log.zone_size_) e])) := by
  obtain ⟨out, dev1, hrun, hcalls⟩ :=
    resetAllLoop_run ch log hgeo.1 hgeo.2.2.1 log.zones fuel log.min_zone_head_ dev
      (geometry_range log hgeo) hfuel
  rcases hcalls with ⟨rfl, hc⟩ | ⟨j, e, hj, he, rfl, hc⟩
  · exact ⟨{ status := SZDStatus.Success
             log := { log with write_head_ := log.min_zone_head_,
                                zone_head_ := log.min_zone_head_ }
             dev := dev1 },
      by simp only [SZDOnceLog.ResetAll, hrun], Or.inl ⟨rfl, rfl, hc⟩⟩
  · exact ⟨{ status := e, log := log, dev := dev1 },
      by simp only [SZDOnceLog.ResetAll, hrun], Or.inr ⟨j, e, hj, he, rfl, rfl, hc⟩⟩

theorem geometry_zone_index (log : SZDOnceLog) (hgeo : log.Geometry) (i : Nat) :
    i < log.zones ↔ log.min_zone_head_ + i * log.zone_size_ < log.max_zone_head_ := by
  have hrange := geometry_range log hgeo
  have hz := hgeo.1
  rw [← hrange]
  constructor
  · intro hi
    have := Nat.mul_lt_mul_of_pos_right hi hz
    omega
  · intro hi
    exact Nat.lt_of_mul_lt_mul_right (a := log.zone_size_) (by omega)

/-! ## C3: a complete reset -/

/-- C3. Under the geometry precondition `ResetAll` ends (within `zones + 1` loop tests), and in
every run in which each `ResetZone` call returned `Success`: the calls made are exactly one
`ResetZone` for each zone start `min_zone_head_ + i * zone_size_` lying in
`[min_zone_head_, max_zone_head_)`, in increasing address order; `ResetAll` returns `Success`;
afterwards `write_head_ = zone_head_ = min_zone_head_`, so `Empty()` holds, and `SpaceLeft(1)`
holds when the range has at least one zone. -/
theorem resetAll_success (ch : SZDChannel σ) (log : SZDOnceLog) (dev : Device σ) (fuel : Nat)
    (hgeo : log.Geometry) (hfuel : log.zones < fuel) :
    ∃ r new, log.ResetAll fuel ch dev = .ok r ∧ r.dev.calls = dev.calls ++ new ∧
      ((∀ c ∈ new, c.status = SZDStatus.Success) →
        new = (List.range log.zones).map (fun i =>
          ChannelCall.ResetZone (log.min_zone_head_ + i * log.zone_size_) SZDStatus.Success) ∧
        (∀ i, i < log.zones ↔
          log.min_zone_head_ + i * log.zone_size_ < log.max_zone_head_) ∧
        r.status = SZDStatus.Success ∧
        r.log = { log with write_head_ := log.min_zone_head_,
                           zone_head_ := log.min_zone_head_ } ∧
        r.log.write_head_ = log.min_zone_head_ ∧ r.log.zone_head_ = log.min_zone_head_ ∧
        r.log.Empty = true ∧ (0 < log.zones → r.log.SpaceLeft 1 = true)) := by
  obtain ⟨r, hrun, hcase⟩ := resetAll_run ch log dev fuel hgeo hfuel
  rcases hcase with ⟨hstatus, hlog, hcalls⟩ | ⟨j, e, _, he, _, _, hcalls⟩
  · refine ⟨r, _, hrun, hcalls, fun _ => ⟨rfl, geometry_zone_index log hgeo, hstatus, hlog,
      by rw [hlog], by rw [hlog], by rw [hlog]; simp [SZDOnceLog.Empty], ?_⟩⟩
    intro hzones
    have hrange := geometry_range log hgeo
    have hpos : log.zone_size_ ≤ log.zones * log.zone_size_ :=
      Nat.le_mul_of_pos_left _ hzones
    have hz := hgeo.1
    have hmax := hgeo.2.2.1
    rw [hlog]
    simp only [SZDOnceLog.SpaceLeft, decide_eq_true_eq]
    rw [sub64_of_le hgeo.2.1 hmax]
    omega
  · refine ⟨r, _, hrun, hcalls, fun hall => absurd
      (hall (ChannelCall.ResetZone (log.min_zone_head_ + j * log.zone_size_) e) ?_) he⟩
    simp

/-- C3 on the simulated device: a log over the two zones of `[0, 8)` with write head 6. -/
theorem resetAll_success_witness :
    ((⟨0, 8, 4, 6, 4⟩ : SZDOnceLog).Geometry ∧ (⟨0, 8, 4, 6, 4⟩ : SZDOnceLog).zones < 3) ∧
    (∃ r new, (⟨0, 8, 4, 6, 4⟩ : SZDOnceLog).ResetAll 3 (simChannel (plainSim 4)) (simDevice 6) = .ok r ∧
      r.dev.calls = (simDevice 6).calls ++ new ∧
      ((∀ c ∈ new, c.status = SZDStatus.Success) →
        new = (List.range (⟨0, 8, 4, 6, 4⟩ : SZDOnceLog).zones).map (fun i =>
          ChannelCall.ResetZone (0 + i * 4) SZDStatus.Success) ∧
        (∀ i, i < (⟨0, 8, 4, 6, 4⟩ : SZDOnceLog).zones ↔ 0 + i * 4 < 8) ∧
        r.status = SZDStatus.Success ∧
        r.log = ⟨0, 8, 4, 0, 0⟩ ∧
        r.log.write_head_ = 0 ∧ r.log.zone_head_ = 0 ∧
        r.log.Empty = true ∧
        (0 < (⟨0, 8, 4, 6, 4⟩ : SZDOnceLog).zones → r.log.SpaceLeft 1 = true))) ∧
    (⟨0, 8, 4, 6, 4⟩ : SZDOnceLog).ResetAll 3 (simChannel (plainSim 4)) (simDevice 6) =
      .ok { status := SZDStatus.Success
            log := ⟨0, 8, 4, 0, 0⟩
            dev := { state := 0
                     calls := [ChannelCall.ResetZone 0 SZDStatus.Success,
                               ChannelCall.ResetZone 4 SZDStatus.Success] } } :=
  ⟨⟨by decide, by decide⟩,
    resetAll_success (simChannel (plainSim 4)) ⟨0, 8, 4, 6, 4⟩ (simDevice 6) 3 (by decide) (by decide), rfl⟩

/-! ## C4: a reset that fails part-way -/

/-- C4. Under the geometry precondition `ResetAll` ends (within `zones + 1` loop tests), and in
every run in which some `ResetZone` call returned a status other than `Success`: the failing
call is the last call made (every earlier call, one per zone in address order, returned
`Success`, and no zone after the failing one is reset), `ResetAll` returns exactly the status
of that call, and the log, so `write_head_` and `zone_head_`, is as it was before. -/
theorem resetAll_failure (ch : SZDChannel σ) (log : SZDOnceLog) (dev : Device σ) (fuel : Nat)
    (hgeo : log.Geometry) (hfuel : log.zones < fuel) :
    ∃ r new, log.ResetAll fuel ch dev = .ok r ∧ r.dev.calls = dev.calls ++ new ∧
      ((∃ c ∈ new, c.status ≠ SZDStatus.Success) →
        ∃ j e, j < log.zones ∧ e ≠ SZDStatus.Success ∧
          new = (List.range j).map (fun i =>
              ChannelCall.ResetZone (log.min_zone_head_ + i * log.zone_size_)
                SZDStatus.Success) ++
            [ChannelCall.ResetZone (log.min_zone_head_ + j * log.zone_size_) e] ∧
          r.status = e ∧ r.log = log ∧
          r.log.write_head_ = log.write_head_ ∧ r.log.zone_head_ = log.zone_head_) := by
  obtain ⟨r, hrun, hcase⟩ := resetAll_run ch log dev fuel hgeo hfuel
  rcases hcase with ⟨_, _, hcalls⟩ | ⟨j, e, hj, he, hstatus, hlog, hcalls⟩
  · refine ⟨r, _, hrun, hcalls, fun hbad => ?_⟩
    obtain ⟨c, hc, hne⟩ := hbad
    exact absurd (resetCalls_status _ _ _ c hc) hne
  · exact ⟨r, _, hrun, hcalls, fun _ =>
      ⟨j, e, hj, he, rfl, hstatus, hlog, by rw [hlog], by rw [hlog]⟩⟩

/-- C4 on the simulated device: the reset of the second of three zones fails. -/
theorem resetAll_failure_witness :
    ((⟨0, 12, 4, 6, 4⟩ : SZDOnceLog).Geometry ∧ (⟨0, 12, 4, 6, 4⟩ : SZDOnceLog).zones < 4) ∧
    (∃ r new, (⟨0, 12, 4, 6, 4⟩ : SZDOnceLog).ResetAll 4 (simChannel brokenSim) (simDevice 6) = .ok r ∧
      r.dev.calls = (simDevice 6).calls ++ new ∧
      ((∃ c ∈ new, c.status ≠ SZDStatus.Success) →
        ∃ j e, j < (⟨0, 12, 4, 6, 4⟩ : SZDOnceLog).zones ∧ e ≠ SZDStatus.Success ∧
          new = (List.range j).map (fun i =>
              ChannelCall.ResetZone (0 + i * 4) SZDStatus.Success) ++
            [ChannelCall.ResetZone (0 + j * 4) e] ∧
          r.status = e ∧ r.log = ⟨0, 12, 4, 6, 4⟩ ∧
          r.log.write_head_ = 6 ∧ r.log.zone_head_ = 4)) ∧
    (⟨0, 12, 4, 6, 4⟩ : SZDOnceLog).ResetAll 4 (simChannel brokenSim) (simDevice 6) =
      .ok { status := SZDStatus.DeviceError
            log := ⟨0, 12, 4, 6, 4⟩
            dev := { state := 0
                     calls := [ChannelCall.ResetZone 0 SZDStatus.Success,
                               ChannelCall.ResetZone 4 SZDStatus.DeviceError] } } :=
  ⟨⟨by decide, by decide⟩,
    resetAll_failure (simChannel brokenSim) ⟨0, 12, 4, 6, 4⟩ (simDevice 6) 4 (by decide) (by decide), rfl⟩

/-! ## The zone scan of `RecoverPointers` on a sequentially written range -/

theorem sequentialPointer_le (zone_size W slba : Nat) :
    sequentialPointer zone_size W slba ≤ slba + zone_size := by
  unfold sequentialPointer
  split_ifs <;> omega

/-- One iteration of the scan on a sequentially written range: `p` is the pointer the
zone at `slba` reports and `w1` the local `write_head` after the first `if`.  Either the
`break` is taken with `w1 = W`, or the scan invariant holds again at the next zone. -/
theorem scan_step {zone_size m W slba write_head p w1 : Nat} (hz : 0 < zone_size)
    (hp : p = sequentialPointer zone_size W slba)
    (hw1 : w1 = if p > slba then p else write_head) (hwh : write_head = min W slba) :
    ((w1 > m ∧ p = slba) → w1 = W) ∧
      (¬ (w1 > m ∧ p = slba) → w1 = min W (slba + zone_size)) := by
  subst hp hw1 hwh
  unfold sequentialPointer
  constructor
  · intro h
    split_ifs at h ⊢ <;> omega
  · intro h
    split_ifs at h ⊢ <;> omega

/-- The loop of `RecoverPointers` entered at the `i`-th zone with `k` zones left, the local
`write_head` holding `min W slba`: it ends within `k + 1` loop tests, without an early
return, with `write_head = W`. -/
theorem recoverPointersLoop_sequential (ch : SZDChannel σ) (log : SZDOnceLog) (W : Nat)
    (P : σ → Prop) (hgeo : log.Geometry)
    (hW : log.min_zone_head_ ≤ W ∧ W ≤ log.max_zone_head_)
    (hseq : SequentiallyWritten ch log W P) :
    ∀ (k i fuel write_head zone_head : Nat) (dev : Device σ),
      i + k = log.zones → k < fuel → P dev.state →
      write_head = min W (log.min_zone_head_ + i * log.zone_size_) →
      ∃ x, SZDOnceLog.RecoverPointersLoop ch log fuel
          (log.min_zone_head_ + i * log.zone_size_) write_head zone_head dev = .ok x ∧
        x.returned = none ∧ x.write_head = W ∧ P x.dev.state := by
  have hrange := geometry_range log hgeo
  have hz := hgeo.1
  have hmax := hgeo.2.2.1
  intro k
  induction k with
  | zero =>
    intro i fuel write_head zone_head dev hik hfuel hP hwh
    obtain ⟨f, rfl⟩ : ∃ f, fuel = f + 1 := ⟨fuel - 1, by omega⟩
    have hi : i = log.zones := by omega
    subst hi
    have hnot : ¬ log.min_zone_head_ + log.zones * log.zone_size_ < log.max_zone_head_ := by
      omega
    refine ⟨{ returned := none, write_head := write_head, dev := dev }, ?_, rfl, ?_, hP⟩
    · simp only [SZDOnceLog.RecoverPointersLoop, hnot, if_false]
    · show write_head = W
      omega
  | succ k ih =>
    intro i fuel write_head zone_head dev hik hfuel hP hwh
    obtain ⟨f, rfl⟩ : ∃ f, fuel = f + 1 := ⟨fuel - 1, by omega⟩
    have hi : i < log.zones := by omega
    have hlt : log.min_zone_head_ + i * log.zone_size_ < log.max_zone_head_ :=
      (geometry_zone_index log hgeo i).1 hi
    have hmul : (i + 1) * log.zone_size_ = i * log.zone_size_ + log.zone_size_ :=
      Nat.succ_mul i _
    have hnext_le : log.min_zone_head_ + i * log.zone_size_ + log.zone_size_ ≤
        log.max_zone_head_ := by
      have := Nat.mul_le_mul_right log.zone_size_ (show i + 1 ≤ log.zones by omega)
      omega
    obtain ⟨hstatus, hptr, hP1⟩ := hseq dev.state hP i hi zone_head
    have hstep := ih (i + 1) f
    rw [hmul, ← Nat.add_assoc] at hstep
    generalize log.min_zone_head_ + i * log.zone_size_ = slba at *
    have hple := sequentialPointer_le log.zone_size_ W slba
    have hhead : (dev.ZoneHead ch slba zone_head).head =
        sequentialPointer log.zone_size_ W slba := by
      simp only [Device.ZoneHead, hptr, wrap64]
      exact Nat.mod_eq_of_lt (by omega)
    have hst : (dev.ZoneHead ch slba zone_head).status = SZDStatus.Success := hstatus
    have hnext : add64 slba log.zone_size_ = slba + log.zone_size_ := by
      unfold add64
      exact Nat.mod_eq_of_lt (by omega)
    simp only [SZDOnceLog.RecoverPointersLoop, hlt, if_true, hst, ne_eq, not_true_eq_false,
      if_false, hhead, hnext]
    generalize hp : sequentialPointer log.zone_size_ W slba = p
    generalize hw1 : (if p > slba then p else write_head) = w1
    have hA := scan_step (m := log.min_zone_head_) hz hp.symm hw1.symm hwh
    by_cases hc : w1 > log.min_zone_head_ ∧ p = slba
    · rw [if_pos hc]
      exact ⟨_, rfl, rfl, hA.1 hc, hP1⟩
    · rw [if_neg hc]
      exact hstep _ _ _ (by omega) (by omega) hP1 (hA.2 hc)

/-! ## C5: recovery reproduces the cursors -/

/-- C5. For every zone-aligned range with `zone_size_ > 0` and every `W` with
`min_zone_head_ ≤ W ≤ max_zone_head_`: when the range is written sequentially up to `W`
(`ZoneHead` for the zone starting at `s` succeeds and reports `s` if `W ≤ s`, `W` if
`s < W < s + zone_size_`, and `s + zone_size_` otherwise), `RecoverPointers` ends (within
`zones + 1` loop tests), returns `Success`, and sets `write_head_ = W` and
`zone_head_ = (W / zone_size_) * zone_size_`; a log whose cursors already held these
values, as they do after the appends that produced `W`, is left as it was. -/
theorem recoverPointers_sequential (ch : SZDChannel σ) (log : SZDOnceLog) (dev : Device σ)
    (fuel W : Nat) (P : σ → Prop) (hgeo : log.Geometry) (hfuel : log.zones < fuel)
    (hW : log.min_zone_head_ ≤ W ∧ W ≤ log.max_zone_head_) (hP : P dev.state)
    (hseq : SequentiallyWritten ch log W P) :
    ∃ r, log.RecoverPointers fuel ch dev = .ok r ∧ r.status = SZDStatus.Success ∧
      r.log = { log with write_head_ := W,
                         zone_head_ := W / log.zone_size_ * log.zone_size_ } ∧
      r.log.write_head_ = W ∧ r.log.zone_head_ = W / log.zone_size_ * log.zone_size_ ∧
      (log.write_head_ = W → log.zone_head_ = W / log.zone_size_ * log.zone_size_ →
        r.log = log) := by
  obtain ⟨x, hrun, hret, hwh, _⟩ :=
    recoverPointersLoop_sequential ch log W P hgeo hW hseq log.zones 0 fuel
      log.min_zone_head_ log.min_zone_head_ dev (by omega) hfuel hP
      (by simp only [Nat.zero_mul, Nat.add_zero]; omega)
  simp only [Nat.zero_mul, Nat.add_zero] at hrun
  have hz : log.zone_size_ ≠ 0 := by have := hgeo.1; omega
  have hWlt : W < 2 ^ 64 := by have := hgeo.2.2.1; omega
  refine ⟨{ status := SZDStatus.Success
            log := { log with write_head_ := W,
                              zone_head_ := W / log.zone_size_ * log.zone_size_ }
            dev := x.dev }, ?_, rfl, rfl, rfl, rfl, ?_⟩
  · simp only [SZDOnceLog.RecoverPointers, hrun, hret, hz, if_false, hwh,
      mul64_round_down hWlt]
  · intro h1 h2
    cases log
    simp only at h1 h2
    simp only [h1, ← h2]

/-- The simulated device written up to 102400 answers as a sequentially written range. -/
theorem simChannel_sequential :
    SequentiallyWritten (simChannel (plainSim 65536)) (emptyLog 65536 0 262144) 102400
      (fun frontier => frontier = 102400) := by
  intro st hst i _ zone_head
  subst hst
  exact ⟨rfl, rfl, rfl⟩

/-- C5 on the simulated device: four zones of 64KB written up to 102400, recovered into a log
whose cursors are still those of construction. -/
theorem recoverPointers_sequential_witness :
    ((emptyLog 65536 0 262144).Geometry ∧ (emptyLog 65536 0 262144).zones < 5 ∧
      (emptyLog 65536 0 262144).min_zone_head_ ≤ 102400 ∧
      102400 ≤ (emptyLog 65536 0 262144).max_zone_head_) ∧
    (∃ r, (emptyLog 65536 0 262144).RecoverPointers 5 (simChannel (plainSim 65536))
        (simDevice 102400) =
        .ok r ∧ r.status = SZDStatus.Success ∧
      r.log = { emptyLog 65536 0 262144 with
                write_head_ := 102400, zone_head_ := 102400 / 65536 * 65536 } ∧
      r.log.write_head_ = 102400 ∧ r.log.zone_head_ = 102400 / 65536 * 65536 ∧
      ((emptyLog 65536 0 262144).write_head_ = 102400 →
        (emptyLog 65536 0 262144).zone_head_ = 102400 / 65536 * 65536 →
        r.log = emptyLog 65536 0 262144)) ∧
    ((emptyLog 65536 0 262144).RecoverPointers 5 (simChannel (plainSim 65536))
        (simDevice 102400)).map
        (fun r => (r.status, r.log)) =
      .ok (SZDStatus.Success, ⟨0, 262144, 65536, 102400, 65536⟩) :=
  ⟨⟨by decide, by decide, by decide, by decide⟩,
    recoverPointers_sequential (simChannel (plainSim 65536)) (emptyLog 65536 0 262144)
      (simDevice 102400) 5 102400 (fun frontier => frontier = 102400) (by decide) (by decide)
      ⟨by decide, by decide⟩ rfl simChannel_sequential, rfl⟩

/-! ## C6: a failing append -/

/-- C6, as stated, fails: an append of six units to the empty log over `[0, 8)` passes the
capacity check, the channel writes five units and reports `IOError`; `Append` returns
`IOError` with `write_head_` moved from 0 to 5 and `zone_head_` from 0 to 4. -/
theorem failing_append_moves_cursors :
    (emptyLog 4 0 8).AppendWith (simChannel tornSim) (simDevice 0)
        (AppendArgs.ofData [] 6 (some 0) true) =
      .ok { status := SZDStatus.IOError
            log := ⟨0, 8, 4, 5, 4⟩
            dev := { state := 5
                     calls := [ChannelCall.DirectAppend 0 [] 6 true SZDStatus.IOError 5] }
            lbas := some 5 } ∧
    SZDStatus.IOError ≠ SZDStatus.Success ∧
    (⟨0, 8, 4, 5, 4⟩ : SZDOnceLog).write_head_ ≠ (emptyLog 4 0 8).write_head_ ∧
    (⟨0, 8, 4, 5, 4⟩ : SZDOnceLog).zone_head_ ≠ (emptyLog 4 0 8).zone_head_ :=
  ⟨rfl, by decide, by decide, by decide⟩

/-- C6, amended. For every failing `Append` on a log with `zone_size_ > 0`: either the
capacity check failed and the log is unchanged, or the check passed, the status is the one
the channel call returned, `write_head_` is the value the channel left in the write-head
variable and `zone_head_` is that value rounded down to a zone boundary; in the second case
the log is unchanged when the channel left the write head at its old value and `zone_head_`
was already the rounded-down `write_head_`. -/
theorem append_failure (ch : SZDChannel σ) (log : SZDOnceLog) (dev : Device σ)
    (args : AppendArgs) (hzone : 0 < log.zone_size_) :
    ∃ r, log.AppendWith ch dev args = .ok r ∧
      (r.status ≠ SZDStatus.Success →
        (log.SpaceLeft args.size = false ∧ r.status = SZDStatus.IOError ∧ r.log = log) ∨
        (log.SpaceLeft args.size = true ∧
          r.status = (dev.appendCall ch log.write_head_ args).status ∧
          r.log = { log with
                    write_head_ := (dev.appendCall ch log.write_head_ args).head,
                    zone_head_ := (dev.appendCall ch log.write_head_ args).head /
                      log.zone_size_ * log.zone_size_ } ∧
          ((dev.appendCall ch log.write_head_ args).head = log.write_head_ →
            log.zone_head_ = log.write_head_ / log.zone_size_ * log.zone_size_ →
            r.log = log))) := by
  cases hspace : log.SpaceLeft args.size
  · exact ⟨_, appendWith_of_no_space ch log dev args hspace, fun _ => Or.inl ⟨rfl, rfl, rfl⟩⟩
  · refine ⟨_, appendWith_of_space ch log dev args hzone hspace, fun _ =>
      Or.inr ⟨rfl, rfl, rfl, fun h1 h2 => ?_⟩⟩
    cases log
    simp only at h1 h2 ⊢
    simp only [h1, ← h2]

/-- C6, amended, on the simulated device whose appends fail after five units. -/
theorem append_failure_witness :
    0 < (emptyLog 4 0 8).zone_size_ ∧
    ∃ r, (emptyLog 4 0 8).AppendWith (simChannel tornSim) (simDevice 0)
        (AppendArgs.ofData [] 6 (some 0) true) = .ok r ∧
      (r.status ≠ SZDStatus.Success →
        ((emptyLog 4 0 8).SpaceLeft (AppendArgs.ofData [] 6 (some 0) true).size = false ∧
          r.status = SZDStatus.IOError ∧ r.log = emptyLog 4 0 8) ∨
        ((emptyLog 4 0 8).SpaceLeft (AppendArgs.ofData [] 6 (some 0) true).size = true ∧
          r.status = ((simDevice 0).appendCall (simChannel tornSim) 0
            (AppendArgs.ofData [] 6 (some 0) true)).status ∧
          r.log = { emptyLog 4 0 8 with
                    write_head_ := ((simDevice 0).appendCall (simChannel tornSim) 0
                      (AppendArgs.ofData [] 6 (some 0) true)).head,
                    zone_head_ := ((simDevice 0).appendCall (simChannel tornSim) 0
                      (AppendArgs.ofData [] 6 (some 0) true)).head / 4 * 4 } ∧
          (((simDevice 0).appendCall (simChannel tornSim) 0
              (AppendArgs.ofData [] 6 (some 0) true)).head = 0 →
            (emptyLog 4 0 8).zone_head_ = 0 / 4 * 4 → r.log = emptyLog 4 0 8))) :=
  ⟨by decide, append_failure (simChannel tornSim) (emptyLog 4 0 8) (simDevice 0)
    (AppendArgs.ofData [] 6 (some 0) true) (by decide)⟩

/-! ## What one call does to the log -/

/-- An `Append` that returns either leaves the log as it was, or passed its capacity check
and stored the value the channel left in the write-head variable, with `zone_head_`
rounded down from it. -/
theorem appendWith_log (ch : SZDChannel σ) (log : SZDOnceLog) (dev : Device σ)
    (args : AppendArgs) (r : AppendOutcome σ) (hr : log.AppendWith ch dev args = .ok r) :
    r.log = log ∨
      (0 < log.zone_size_ ∧ log.SpaceLeft args.size = true ∧
        r.status = (dev.appendCall ch log.write_head_ args).status ∧
        r.lbas = args.lbas.map
          (fun _ => sub64 (dev.appendCall ch log.write_head_ args).head log.write_head_) ∧
        r.log = { log with
                  write_head_ := (dev.appendCall ch log.write_head_ args).head,
                  zone_head_ := (dev.appendCall ch log.write_head_ args).head /
                    log.zone_size_ * log.zone_size_ }) := by
  cases hspace : log.SpaceLeft args.size
  · rw [appendWith_of_no_space ch log dev args hspace] at hr
    cases hr
    exact Or.inl rfl
  · by_cases hz : log.zone_size_ = 0
    · exfalso
      cases args <;>
        simp_all [SZDOnceLog.AppendWith, SZDOnceLog.Append, SZDOnceLog.Append_string,
          SZDOnceLog.Append_section, SZDOnceLog.Append_buffer, AppendArgs.size]
    · have hpos : 0 < log.zone_size_ := by omega
      rw [appendWith_of_space ch log dev args hpos hspace] at hr
      cases hr
      exact Or.inr ⟨hpos, rfl, rfl, rfl, rfl⟩

/-- A `ResetAll` that returns either leaves the log as it was or rewinds both cursors. -/
theorem resetAll_log (ch : SZDChannel σ) (log : SZDOnceLog) (dev : Device σ) (fuel : Nat)
    (r : Outcome σ) (hr : log.ResetAll fuel ch dev = .ok r) :
    r.log = log ∨
      r.log = { log with write_head_ := log.min_zone_head_,
                         zone_head_ := log.min_zone_head_ } := by
  unfold SZDOnceLog.ResetAll at hr
  split at hr
  · cases hr
  · cases hr
    exact Or.inl rfl
  · cases hr
    exact Or.inr rfl

/-- An invariant of the scan of `RecoverPointers`: when `J` holds of every scan address and
`Q` of every pointer that a successful `ZoneHead` at such an address reports beyond the
zone start, then `Q` passes from the initial local `write_head` to the final one. -/
theorem recoverPointersLoop_invariant (ch : SZDChannel σ) (log : SZDOnceLog)
    (J Q : Nat → Prop)
    (hJ : ∀ s, J s → s < log.max_zone_head_ → J (add64 s log.zone_size_))
    (hQ : ∀ s (dev : Device σ) zone_head, J s → s < log.max_zone_head_ →
      (dev.ZoneHead ch s zone_head).status = SZDStatus.Success →
      (dev.ZoneHead ch s zone_head).head > s → Q (dev.ZoneHead ch s zone_head).head) :
    ∀ (fuel slba write_head zone_head : Nat) (dev : Device σ) (x : ScanExit σ),
      J slba → Q write_head →
      SZDOnceLog.RecoverPointersLoop ch log fuel slba write_head zone_head dev = .ok x →
      Q x.write_head := by
  intro fuel
  induction fuel with
  | zero =>
    intro slba write_head zone_head dev x _ _ hx
    simp [SZDOnceLog.RecoverPointersLoop] at hx
  | succ f ih =>
    intro slba write_head zone_head dev x hJs hQw hx
    unfold SZDOnceLog.RecoverPointersLoop at hx
    by_cases hlt : slba < log.max_zone_head_
    · rw [if_pos hlt] at hx
      by_cases hst : (dev.ZoneHead ch slba zone_head).status = SZDStatus.Success
      · have hQ1 : Q (if (dev.ZoneHead ch slba zone_head).head > slba then
            (dev.ZoneHead ch slba zone_head).head else write_head) := by
          split_ifs with hgt
          · exact hQ slba dev zone_head hJs hlt hst hgt
          · exact hQw
        simp only [hst, ne_eq, not_true_eq_false, if_false] at hx
        generalize (if (dev.ZoneHead ch slba zone_head).head > slba then
          (dev.ZoneHead ch slba zone_head).head else write_head) = w1 at hx hQ1
        split_ifs at hx
        · cases hx
          exact hQ1
        · exact ih _ _ _ _ _ (hJ slba hJs hlt) hQ1 hx
      · simp only [ne_eq, hst, not_false_eq_true, if_true] at hx
        cases hx
        exact hQw
    · rw [if_neg hlt] at hx
      cases hx
      exact hQw

/-- A `RecoverPointers` that returns either leaves the log as it was or stores the final
local `write_head` of its scan, with `zone_head_` computed from it. -/
theorem recoverPointers_log (ch : SZDChannel σ) (log : SZDOnceLog) (dev : Device σ)
    (fuel : Nat) (r : Outcome σ) (hr : log.RecoverPointers fuel ch dev = .ok r) :
    r.log = log ∨
      ∃ x, SZDOnceLog.RecoverPointersLoop ch log fuel log.min_zone_head_
          log.min_zone_head_ log.min_zone_head_ dev = .ok x ∧
        0 < log.zone_size_ ∧
        r.log = { log with
                  write_head_ := x.write_head,
                  zone_head_ := mul64 (x.write_head / log.zone_size_) log.zone_size_ } := by
  unfold SZDOnceLog.RecoverPointers at hr
  split at hr
  · cases hr
  · rename_i x hx
    split at hr
    · cases hr
      exact Or.inl rfl
    · split_ifs at hr with hz
      cases hr
      exact Or.inr ⟨x, hx, by omega, rfl⟩

theorem spaceLeft_iff (log : SZDOnceLog) (size : Nat)
    (hwh : log.write_head_ ≤ log.max_zone_head_) (hmax : log.max_zone_head_ < 2 ^ 64) :
    log.SpaceLeft size = true ↔ size ≤ log.max_zone_head_ - log.write_head_ := by
  simp only [SZDOnceLog.SpaceLeft, decide_eq_true_eq, sub64_of_le hwh hmax]

/-! ## C7: the write head stays in the range -/

/-- C7, as stated, fails.  The simulated device with zones of three units that pads every
append to a multiple of two units meets the interface the claim names (an append advances
the write head by at least the requested size, `ZoneHead` reports a pointer inside the
zone), and one successful append of three units to the empty log over `[0, 3)` leaves
`write_head_ = 4`, beyond `max_zone_head_ = 3`. -/
theorem padded_append_leaves_range :
    StatedInterface (simChannel paddingSim) (emptyLog 3 0 3) ∧
    (emptyLog 3 0 3).Geometry ∧
    (emptyLog 3 0 3).AppendWith (simChannel paddingSim) (simDevice 0)
        (AppendArgs.ofData [] 3 none true) =
      .ok { status := SZDStatus.Success
            log := ⟨0, 3, 3, 4, 3⟩
            dev := { state := 4
                     calls := [ChannelCall.DirectAppend 0 [] 3 true SZDStatus.Success 4] }
            lbas := none } ∧
    Reachable (simChannel paddingSim) (emptyLog 3 0 3) (simDevice 0) ⟨0, 3, 3, 4, 3⟩
      { state := 4, calls := [ChannelCall.DirectAppend 0 [] 3 true SZDStatus.Success 4] } ∧
    ¬ ((⟨0, 3, 3, 4, 3⟩ : SZDOnceLog).write_head_ ≤
      (⟨0, 3, 3, 4, 3⟩ : SZDOnceLog).max_zone_head_) := by
  refine ⟨⟨?_, ?_, ?_, ?_⟩, by decide, rfl, ?_, by decide⟩
  · intro st w data size alligned
    simp only [simChannel, SimConfig.append, paddingSim, SimConfig.padded]
    omega
  · intro st w buffer addr size alligned
    simp only [simChannel, SimConfig.append, paddingSim, SimConfig.padded]
    omega
  · intro st w buffer
    simp only [simChannel, SimConfig.append, paddingSim, SimConfig.padded]
    omega
  · intro st s zone_head
    simp only [simChannel, paddingSim, List.not_mem_nil, if_false, sequentialPointer, emptyLog]
    split_ifs <;> omega
  · exact Reachable.append (AppendArgs.ofData [] 3 none true)
      { status := SZDStatus.Success
        log := ⟨0, 3, 3, 4, 3⟩
        dev := { state := 4
                 calls := [ChannelCall.DirectAppend 0 [] 3 true SZDStatus.Success 4] }
        lbas := none } Reachable.start rfl

/-- C7, amended. For an empty log with the geometry precondition, a channel whose appends
stay inside the range (an append that passed the capacity check leaves the write head
between its old value and `max_zone_head_`) and whose `ZoneHead` reports a pointer inside
the zone asked for: in every state reachable by `Append` (every overload), `ResetAll` and
`RecoverPointers`, `min_zone_head_ ≤ write_head_ ≤ max_zone_head_`, the geometry being that
of the initial log. -/
theorem write_head_in_range (ch : SZDChannel σ) (log0 log : SZDOnceLog) (dev0 dev : Device σ)
    (hgeo : log0.Geometry) (hempty : log0.write_head_ = log0.min_zone_head_)
    (happend : AppendsWithinRange ch log0) (hzone : ZoneHeadsWithinZone ch log0)
    (hreach : Reachable ch log0 dev0 log dev) :
    (log.min_zone_head_ ≤ log.write_head_ ∧ log.write_head_ ≤ log.max_zone_head_) ∧
      log.min_zone_head_ = log0.min_zone_head_ ∧
      log.max_zone_head_ = log0.max_zone_head_ ∧ log.zone_size_ = log0.zone_size_ := by
  have hmax := hgeo.2.2.1
  have hle := hgeo.2.1
  have hz := hgeo.1
  have hrange := geometry_range log0 hgeo
  have key : ∃ wh zh, log = { log0 with write_head_ := wh, zone_head_ := zh } ∧
      log0.min_zone_head_ ≤ wh ∧ wh ≤ log0.max_zone_head_ := by
    induction hreach with
    | start => exact ⟨log0.write_head_, log0.zone_head_, rfl, by omega, by omega⟩
    | @append log dev args r _ hr ih =>
      obtain ⟨wh, zh, rfl, h1, h2⟩ := ih
      rcases appendWith_log ch _ dev args r hr with hsame | ⟨_, hspace, _, _, hlog⟩
      · exact ⟨wh, zh, hsame, h1, h2⟩
      · have hsize : args.size ≤ log0.max_zone_head_ - wh :=
          (spaceLeft_iff { log0 with write_head_ := wh, zone_head_ := zh }
            args.size h2 hmax).1 hspace
        have hin := happend dev wh args h1 h2 hsize
        exact ⟨_, _, hlog, Nat.le_trans h1 hin.1, hin.2⟩
    | @resetAll log dev fuel r _ hr ih =>
      obtain ⟨wh, zh, rfl, h1, h2⟩ := ih
      rcases resetAll_log ch _ dev fuel r hr with hsame | hlog
      · exact ⟨wh, zh, hsame, h1, h2⟩
      · exact ⟨_, _, hlog, Nat.le_refl _, hle⟩
    | @recoverPointers log dev fuel r _ hr ih =>
      obtain ⟨wh, zh, rfl, h1, h2⟩ := ih
      rcases recoverPointers_log ch _ dev fuel r hr with hsame | ⟨x, hx, _, hlog⟩
      · exact ⟨wh, zh, hsame, h1, h2⟩
      · refine ⟨_, _, hlog, ?_⟩
        refine recoverPointersLoop_invariant ch _
          (fun s => ∃ i, i ≤ log0.zones ∧ s = log0.min_zone_head_ + i * log0.zone_size_)
          (fun w => log0.min_zone_head_ ≤ w ∧ w ≤ log0.max_zone_head_) ?_ ?_
          fuel _ _ _ dev x ⟨0, Nat.zero_le _, by simp⟩ ⟨Nat.le_refl _, hle⟩ hx
        · rintro s ⟨i, hi, rfl⟩ hlt
          have hi1 : i < log0.zones := (geometry_zone_index log0 hgeo i).2 hlt
          have hnext := Nat.mul_le_mul_right log0.zone_size_ (show i + 1 ≤ log0.zones from hi1)
          have hmul : (i + 1) * log0.zone_size_ = i * log0.zone_size_ + log0.zone_size_ :=
            Nat.succ_mul i _
          refine ⟨i + 1, hi1, ?_⟩
          show add64 _ log0.zone_size_ = _
          unfold add64
          rw [Nat.mod_eq_of_lt (by omega)]
          omega
        · rintro s dv zone_head ⟨i, hi, rfl⟩ hlt hst _
          have hi1 : i < log0.zones := (geometry_zone_index log0 hgeo i).2 hlt
          have hnext := Nat.mul_le_mul_right log0.zone_size_ (show i + 1 ≤ log0.zones from hi1)
          have hmul : (i + 1) * log0.zone_size_ = i * log0.zone_size_ + log0.zone_size_ :=
            Nat.succ_mul i _
          have hin := hzone dv i zone_head hi1 hst
          exact ⟨by omega, by omega⟩
  obtain ⟨wh, zh, rfl, h1, h2⟩ := key
  exact ⟨⟨h1, h2⟩, rfl, rfl, rfl⟩

/-- The simulated device without padding keeps its appends inside the range `[0, 8)`. -/
theorem plainSim_appendsWithinRange :
    AppendsWithinRange (simChannel (plainSim 4)) (emptyLog 4 0 8) := by
  intro dev w args _ hw hsize
  simp only [emptyLog] at hw hsize ⊢
  cases args <;>
    simp only [Device.appendCall, Device.DirectAppend, Device.FlushBufferSection,
      Device.FlushBuffer, simChannel, SimConfig.append, plainSim, SimConfig.padded, wrap64,
      AppendArgs.size] at hsize ⊢ <;>
    omega

/-- The simulated device reports zone pointers inside the zone asked for. -/
theorem plainSim_zoneHeadsWithinZone :
    ZoneHeadsWithinZone (simChannel (plainSim 4)) (emptyLog 4 0 8) := by
  intro dev i zone_head hi _
  have hi2 : i < 2 := hi
  simp only [Device.ZoneHead, simChannel, plainSim, List.not_mem_nil, if_false,
    sequentialPointer, wrap64, emptyLog]
  split_ifs <;> omega

/-- C7, amended, on the simulated device: the state after a six-unit append to the empty
log over `[0, 8)`. -/
theorem write_head_in_range_witness :
    ((emptyLog 4 0 8).Geometry ∧
      (emptyLog 4 0 8).write_head_ = (emptyLog 4 0 8).min_zone_head_ ∧
      Reachable (simChannel (plainSim 4)) (emptyLog 4 0 8) (simDevice 0) ⟨0, 8, 4, 6, 4⟩
        { state := 6, calls := [ChannelCall.DirectAppend 0 [] 6 true SZDStatus.Success 6] }) ∧
    (((⟨0, 8, 4, 6, 4⟩ : SZDOnceLog).min_zone_head_ ≤ (⟨0, 8, 4, 6, 4⟩ : SZDOnceLog).write_head_ ∧
        (⟨0, 8, 4, 6, 4⟩ : SZDOnceLog).write_head_ ≤
          (⟨0, 8, 4, 6, 4⟩ : SZDOnceLog).max_zone_head_) ∧
      (⟨0, 8, 4, 6, 4⟩ : SZDOnceLog).min_zone_head_ = (emptyLog 4 0 8).min_zone_head_ ∧
      (⟨0, 8, 4, 6, 4⟩ : SZDOnceLog).max_zone_head_ = (emptyLog 4 0 8).max_zone_head_ ∧
      (⟨0, 8, 4, 6, 4⟩ : SZDOnceLog).zone_size_ = (emptyLog 4 0 8).zone_size_) :=
  have hreach : Reachable (simChannel (plainSim 4)) (emptyLog 4 0 8) (simDevice 0)
      ⟨0, 8, 4, 6, 4⟩
      { state := 6, calls := [ChannelCall.DirectAppend 0 [] 6 true SZDStatus.Success 6] } :=
    Reachable.append (AppendArgs.ofData [] 6 none true)
      { status := SZDStatus.Success
        log := ⟨0, 8, 4, 6, 4⟩
        dev := { state := 6
                 calls := [ChannelCall.DirectAppend 0 [] 6 true SZDStatus.Success 6] }
        lbas := none } Reachable.start rfl
  ⟨⟨by decide, rfl, hreach⟩,
    write_head_in_range (simChannel (plainSim 4)) (emptyLog 4 0 8) ⟨0, 8, 4, 6, 4⟩
      (simDevice 0) _ (by decide) rfl plainSim_appendsWithinRange
      plainSim_zoneHeadsWithinZone hreach⟩

/-! ## C8: the zone head is the write head rounded down -/

/-- C8. For a log built by the constructor with a `uint64_t` lower bound that is a multiple
of the (positive) zone size: in every state reachable by `Append` (successful or failing),
`ResetAll` (successful or failing) and `RecoverPointers` (successful or failing),
`zone_head_ = (write_head_ / zone_size_) * zone_size_`; hence
`zone_head_ ≤ write_head_ < zone_head_ + zone_size_` and `zone_head_` is a multiple of
`zone_size_`. -/
theorem zone_head_rounds_down (ch : SZDChannel σ) (info : DeviceInfo)
    (min_zone_head max_zone_head : Nat) (log0 log : SZDOnceLog) (dev0 dev : Device σ)
    (hnew : SZDOnceLog.construct info min_zone_head max_zone_head = .ok log0)
    (hmin : min_zone_head < 2 ^ 64) (haligned : info.zone_size ∣ min_zone_head)
    (hreach : Reachable ch log0 dev0 log dev) :
    0 < log.zone_size_ ∧
      log.zone_head_ = log.write_head_ / log.zone_size_ * log.zone_size_ ∧
      log.zone_head_ ≤ log.write_head_ ∧
      log.write_head_ < log.zone_head_ + log.zone_size_ ∧
      log.zone_size_ ∣ log.zone_head_ := by
  unfold SZDOnceLog.construct at hnew
  split_ifs at hnew with hzero
  cases hnew
  have hz : 0 < info.zone_size := by omega
  have hround : min_zone_head / info.zone_size * info.zone_size = min_zone_head :=
    Nat.div_mul_cancel haligned
  have key : ∃ wh, wh < 2 ^ 64 ∧
      log = ⟨min_zone_head, max_zone_head, info.zone_size, wh,
        wh / info.zone_size * info.zone_size⟩ := by
    induction hreach with
    | start => exact ⟨min_zone_head, hmin, by rw [hround]⟩
    | @append log dev args r _ hr ih =>
      obtain ⟨wh, hwh, rfl⟩ := ih
      rcases appendWith_log ch _ dev args r hr with hsame | ⟨_, _, _, _, hlog⟩
      · exact ⟨wh, hwh, hsame⟩
      · exact ⟨_, appendCall_head_lt ch dev wh args, hlog⟩
    | @resetAll log dev fuel r _ hr ih =>
      obtain ⟨wh, hwh, rfl⟩ := ih
      rcases resetAll_log ch _ dev fuel r hr with hsame | hlog
      · exact ⟨wh, hwh, hsame⟩
      · exact ⟨min_zone_head, hmin, by rw [hlog, hround]⟩
    | @recoverPointers log dev fuel r _ hr ih =>
      obtain ⟨wh, hwh, rfl⟩ := ih
      rcases recoverPointers_log ch _ dev fuel r hr with hsame | ⟨x, hx, _, hlog⟩
      · exact ⟨wh, hwh, hsame⟩
      · have hlt : x.write_head < 2 ^ 64 :=
          recoverPointersLoop_invariant ch _ (fun _ => True) (fun w => w < 2 ^ 64)
            (fun _ _ _ => trivial) (fun _ _ _ _ _ _ _ => wrap64_lt _)
            fuel _ _ _ dev x trivial hmin hx
        exact ⟨x.write_head, hlt, by rw [hlog, mul64_round_down hlt]⟩
  obtain ⟨wh, _, rfl⟩ := key
  refine ⟨hz, rfl, Nat.div_mul_le_self wh _, ?_, Dvd.intro_left _ rfl⟩
  show wh < wh / info.zone_size * info.zone_size + info.zone_size
  have := Nat.div_add_mod wh info.zone_size
  have := Nat.mod_lt wh hz
  have := Nat.mul_comm info.zone_size (wh / info.zone_size)
  omega

/-- C8 on the simulated device: the log built over `[0, 8)` with zones of four units, after
a six-unit append. -/
theorem zone_head_rounds_down_witness :
    (SZDOnceLog.construct ⟨4⟩ 0 8 = .ok (emptyLog 4 0 8) ∧ 0 < 2 ^ 64 ∧ 4 ∣ 0 ∧
      Reachable (simChannel (plainSim 4)) (emptyLog 4 0 8) (simDevice 0) ⟨0, 8, 4, 6, 4⟩
        { state := 6, calls := [ChannelCall.DirectAppend 0 [] 6 true SZDStatus.Success 6] }) ∧
    (0 < (⟨0, 8, 4, 6, 4⟩ : SZDOnceLog).zone_size_ ∧
      (⟨0, 8, 4, 6, 4⟩ : SZDOnceLog).zone_head_ =
        (⟨0, 8, 4, 6, 4⟩ : SZDOnceLog).write_head_ / (⟨0, 8, 4, 6, 4⟩ : SZDOnceLog).zone_size_ *
          (⟨0, 8, 4, 6, 4⟩ : SZDOnceLog).zone_size_ ∧
      (⟨0, 8, 4, 6, 4⟩ : SZDOnceLog).zone_head_ ≤ (⟨0, 8, 4, 6, 4⟩ : SZDOnceLog).write_head_ ∧
      (⟨0, 8, 4, 6, 4⟩ : SZDOnceLog).write_head_ <
        (⟨0, 8, 4, 6, 4⟩ : SZDOnceLog).zone_head_ + (⟨0, 8, 4, 6, 4⟩ : SZDOnceLog).zone_size_ ∧
      (⟨0, 8, 4, 6, 4⟩ : SZDOnceLog).zone_size_ ∣ (⟨0, 8, 4, 6, 4⟩ : SZDOnceLog).zone_head_) :=
  have hreach : Reachable (simChannel (plainSim 4)) (emptyLog 4 0 8) (simDevice 0)
      ⟨0, 8, 4, 6, 4⟩
      { state := 6, calls := [ChannelCall.DirectAppend 0 [] 6 true SZDStatus.Success 6] } :=
    Reachable.append (AppendArgs.ofData [] 6 none true)
      { status := SZDStatus.Success
        log := ⟨0, 8, 4, 6, 4⟩
        dev := { state := 6
                 calls := [ChannelCall.DirectAppend 0 [] 6 true SZDStatus.Success 6] }
        lbas := none } Reachable.start rfl
  ⟨⟨rfl, by decide, by decide, hreach⟩,
    zone_head_rounds_down (simChannel (plainSim 4)) ⟨4⟩ 0 8 (emptyLog 4 0 8) ⟨0, 8, 4, 6, 4⟩
      (simDevice 0) _ rfl (by decide) (by decide) hreach⟩

/-! ## C9: the write head after a run of successful appends -/

/-- An `Append` that returns `Success` passed its capacity check and made its channel
call, which returned `Success`. -/
theorem appendWith_success (ch : SZDChannel σ) (log : SZDOnceLog) (dev : Device σ)
    (args : AppendArgs) (r : AppendOutcome σ) (hr : log.AppendWith ch dev args = .ok r)
    (hs : r.status = SZDStatus.Success) :
    0 < log.zone_size_ ∧ log.SpaceLeft args.size = true ∧
      (dev.appendCall ch log.write_head_ args).status = SZDStatus.Success ∧
      r.lbas = args.lbas.map
        (fun _ => sub64 (dev.appendCall ch log.write_head_ args).head log.write_head_) ∧
      r.log = { log with
                write_head_ := (dev.appendCall ch log.write_head_ args).head,
                zone_head_ := (dev.appendCall ch log.write_head_ args).head /
                  log.zone_size_ * log.zone_size_ } ∧
      r.dev = (dev.appendCall ch log.write_head_ args).dev := by
  cases hspace : log.SpaceLeft args.size
  · rw [appendWith_of_no_space ch log dev args hspace] at hr
    cases hr
    cases hs
  · rcases appendWith_log ch log dev args r hr with _ | ⟨hpos, _, _, _, _⟩
    · by_cases hz : log.zone_size_ = 0
      · exfalso
        cases args <;>
          simp_all [SZDOnceLog.AppendWith, SZDOnceLog.Append, SZDOnceLog.Append_string,
            SZDOnceLog.Append_section, SZDOnceLog.Append_buffer, AppendArgs.size]
      · rw [appendWith_of_space ch log dev args (by omega) hspace] at hr
        cases hr
        exact ⟨by omega, rfl, hs, rfl, rfl, rfl⟩
    · rw [appendWith_of_space ch log dev args hpos hspace] at hr
      cases hr
      exact ⟨hpos, rfl, hs, rfl, rfl, rfl⟩

/-- A run of successful appends moves the write head by the sum of the channel's advances
and reports each advance through `lbas`. -/
theorem successfulAppends_sum (ch : SZDChannel σ) (log log1 : SZDOnceLog)
    (dev dev1 : Device σ) (steps : List AppendStep)
    (hrun : SuccessfulAppends ch log dev steps log1 dev1) :
    log1.write_head_ = log.write_head_ + (steps.map (fun s => s.advance)).sum ∧
      log1.min_zone_head_ = log.min_zone_head_ ∧
      ∀ s ∈ steps, s.lbas = s.args.lbas.map (fun _ => s.advance) := by
  induction hrun with
  | done log dev => exact ⟨by simp, rfl, by simp⟩
  | @step log log1 dev dev1 steps args advance r hr hs hadv _ ih =>
    obtain ⟨_, _, _, hlbas, hlog, _⟩ := appendWith_success ch log dev args r hr hs
    obtain ⟨hsum, hmin, hall⟩ := ih
    have hlt := appendCall_head_lt ch dev log.write_head_ args
    rw [hlog] at hsum hmin
    simp only at hsum hmin
    refine ⟨?_, hmin, ?_⟩
    · simp only [List.map_cons, List.sum_cons, hsum, hadv]
      omega
    · intro s hmem
      rcases List.mem_cons.1 hmem with rfl | hmem
      · have hsub : sub64 (log.write_head_ + advance) log.write_head_ = advance := by
          rw [sub64_of_le (Nat.le_add_right _ _) (by omega)]
          omega
        simp only [hlbas, hadv, hsub]
      · exact hall s hmem

/-- C9. For every run of successful `Append` calls (any mix of overloads) applied to an
empty log, the channel advancing the write head by `d_1, ..., d_n` in turn: the final
`write_head_` is `min_zone_head_ + (d_1 + ... + d_n)`, the `lbas` cell of the `i`-th call
(when there is one) holds `d_i`, and the advances sum to `write_head_ - min_zone_head_`. -/
theorem successful_appends_total (ch : SZDChannel σ) (log log1 : SZDOnceLog)
    (dev dev1 : Device σ) (steps : List AppendStep)
    (hempty : log.write_head_ = log.min_zone_head_)
    (hrun : SuccessfulAppends ch log dev steps log1 dev1) :
    log1.write_head_ = log.min_zone_head_ + (steps.map (fun s => s.advance)).sum ∧
      (∀ s ∈ steps, s.lbas = s.args.lbas.map (fun _ => s.advance)) ∧
      (steps.map (fun s => s.advance)).sum = log1.write_head_ - log1.min_zone_head_ := by
  obtain ⟨hsum, hmin, hall⟩ := successfulAppends_sum ch log log1 dev dev1 steps hrun
  rw [hempty] at hsum
  exact ⟨hsum, hall, by omega⟩

/-- C9 on the simulated device: appends of three and six units to the empty log over
`[0, 16)`. -/
theorem successful_appends_total_witness :
    ((emptyLog 4 0 16).write_head_ = (emptyLog 4 0 16).min_zone_head_ ∧
      SuccessfulAppends (simChannel (plainSim 4)) (emptyLog 4 0 16) (simDevice 0)
        [⟨AppendArgs.ofData [] 3 (some 0) true, 3, some 3⟩,
          ⟨AppendArgs.ofBuffer ⟨[], 6⟩ (some 0), 6, some 6⟩]
        ⟨0, 16, 4, 9, 8⟩
        { state := 9
          calls := [ChannelCall.DirectAppend 0 [] 3 true SZDStatus.Success 3,
                    ChannelCall.FlushBuffer 3 ⟨[], 6⟩ SZDStatus.Success 9] }) ∧
    (⟨0, 16, 4, 9, 8⟩ : SZDOnceLog).write_head_ = (emptyLog 4 0 16).min_zone_head_ + (3 + (6 + 0)) :=
  have hrun : SuccessfulAppends (simChannel (plainSim 4)) (emptyLog 4 0 16) (simDevice 0)
      [⟨AppendArgs.ofData [] 3 (some 0) true, 3, some 3⟩,
        ⟨AppendArgs.ofBuffer ⟨[], 6⟩ (some 0), 6, some 6⟩]
      ⟨0, 16, 4, 9, 8⟩
      { state := 9
        calls := [ChannelCall.DirectAppend 0 [] 3 true SZDStatus.Success 3,
                  ChannelCall.FlushBuffer 3 ⟨[], 6⟩ SZDStatus.Success 9] } :=
    SuccessfulAppends.step (AppendArgs.ofData [] 3 (some 0) true) 3
      { status := SZDStatus.Success
        log := ⟨0, 16, 4, 3, 0⟩
        dev := { state := 3
                 calls := [ChannelCall.DirectAppend 0 [] 3 true SZDStatus.Success 3] }
        lbas := some 3 } rfl rfl rfl
      (SuccessfulAppends.step (AppendArgs.ofBuffer ⟨[], 6⟩ (some 0)) 6
        { status := SZDStatus.Success
          log := ⟨0, 16, 4, 9, 8⟩
          dev := { state := 9
                   calls := [ChannelCall.DirectAppend 0 [] 3 true SZDStatus.Success 3,
                             ChannelCall.FlushBuffer 3 ⟨[], 6⟩ SZDStatus.Success 9] }
          lbas := some 6 } rfl rfl rfl (SuccessfulAppends.done _ _))
  ⟨⟨rfl, hrun⟩,
    (successful_appends_total (simChannel (plainSim 4)) (emptyLog 4 0 16) ⟨0, 16, 4, 9, 8⟩
      (simDevice 0) _ _ rfl hrun).1⟩

/-! ## C10: tightness of the capacity check -/

/-- C10, as stated, fails.  On the simulated device that pads appends to two units, one
successful append of three units to the empty log over `[0, 3)` leaves `write_head_ = 4`.
There `max_zone_head_ - write_head_` is `2 ^ 64 - 1` over `uint64_t`, adding one gives 0,
and `SpaceLeft(0)` is true; an `Append` of that size is not refused. -/
theorem capacity_check_not_tight :
    SuccessfulAppends (simChannel paddingSim) (emptyLog 3 0 3) (simDevice 0)
      [⟨AppendArgs.ofData [] 3 none true, 4, none⟩] ⟨0, 3, 3, 4, 3⟩
      { state := 4, calls := [ChannelCall.DirectAppend 0 [] 3 true SZDStatus.Success 4] } ∧
    sub64 (⟨0, 3, 3, 4, 3⟩ : SZDOnceLog).max_zone_head_
      (⟨0, 3, 3, 4, 3⟩ : SZDOnceLog).write_head_ = 2 ^ 64 - 1 ∧
    add64 (sub64 (⟨0, 3, 3, 4, 3⟩ : SZDOnceLog).max_zone_head_
      (⟨0, 3, 3, 4, 3⟩ : SZDOnceLog).write_head_) 1 = 0 ∧
    (⟨0, 3, 3, 4, 3⟩ : SZDOnceLog).SpaceLeft
      (add64 (sub64 (⟨0, 3, 3, 4, 3⟩ : SZDOnceLog).max_zone_head_
        (⟨0, 3, 3, 4, 3⟩ : SZDOnceLog).write_head_) 1) = true ∧
    (⟨0, 3, 3, 4, 3⟩ : SZDOnceLog).AppendWith (simChannel paddingSim)
        { state := 4, calls := [ChannelCall.DirectAppend 0 [] 3 true SZDStatus.Success 4] }
        (AppendArgs.ofData [] 0 none true) =
      .ok { status := SZDStatus.Success
            log := ⟨0, 3, 3, 4, 3⟩
            dev := { state := 4
                     calls := [ChannelCall.DirectAppend 0 [] 3 true SZDStatus.Success 4,
                               ChannelCall.DirectAppend 4 [] 0 true SZDStatus.Success 4] }
            lbas := none } :=
  ⟨SuccessfulAppends.step (AppendArgs.ofData [] 3 none true) 4
      { status := SZDStatus.Success
        log := ⟨0, 3, 3, 4, 3⟩
        dev := { state := 4
                 calls := [ChannelCall.DirectAppend 0 [] 3 true SZDStatus.Success 4] }
        lbas := none } rfl rfl rfl (SuccessfulAppends.done _ _),
    by decide, by decide, by decide, rfl⟩

/-- C10, amended. In every state reached from the empty log by a run of successful appends
in which `max_zone_head_ - write_head_`, taken over `uint64_t`, is not `2 ^ 64 - 1`:
`SpaceLeft(max_zone_head_ - write_head_)` is true and
`SpaceLeft(max_zone_head_ - write_head_ + 1)` is false; so an `Append` of exactly the
remaining capacity passes the check and makes its channel call (given `zone_size_ > 0`),
and an `Append` one unit larger returns `IOError` without one. -/
theorem capacity_check_tight (ch : SZDChannel σ) (log log1 : SZDOnceLog)
    (dev dev1 : Device σ) (steps : List AppendStep)
    (_hempty : log.write_head_ = log.min_zone_head_)
    (_hrun : SuccessfulAppends ch log dev steps log1 dev1)
    (hrem : sub64 log1.max_zone_head_ log1.write_head_ ≠ 2 ^ 64 - 1) :
    log1.SpaceLeft (sub64 log1.max_zone_head_ log1.write_head_) = true ∧
      log1.SpaceLeft (add64 (sub64 log1.max_zone_head_ log1.write_head_) 1) = false ∧
      (∀ args : AppendArgs, args.size = sub64 log1.max_zone_head_ log1.write_head_ →
        0 < log1.zone_size_ →
        ∃ r, log1.AppendWith ch dev1 args = .ok r ∧
          r.status = (dev1.appendCall ch log1.write_head_ args).status ∧
          r.dev = (dev1.appendCall ch log1.write_head_ args).dev) ∧
      (∀ args : AppendArgs,
        args.size = add64 (sub64 log1.max_zone_head_ log1.write_head_) 1 →
        log1.AppendWith ch dev1 args =
          .ok { status := SZDStatus.IOError, log := log1, dev := dev1,
                lbas := args.lbas }) := by
  have hlt : sub64 log1.max_zone_head_ log1.write_head_ < 2 ^ 64 := by
    unfold sub64; omega
  have hsucc : add64 (sub64 log1.max_zone_head_ log1.write_head_) 1 =
      sub64 log1.max_zone_head_ log1.write_head_ + 1 := by
    unfold add64
    exact Nat.mod_eq_of_lt (by omega)
  have h1 : log1.SpaceLeft (sub64 log1.max_zone_head_ log1.write_head_) = true := by
    simp [SZDOnceLog.SpaceLeft]
  have h2 : log1.SpaceLeft (add64 (sub64 log1.max_zone_head_ log1.write_head_) 1) =
      false := by
    rw [hsucc]
    simp [SZDOnceLog.SpaceLeft]
  refine ⟨h1, h2, fun args hsize hz => ?_, fun args hsize => ?_⟩
  · exact ⟨_, appendWith_of_space ch log1 dev1 args hz (by rw [hsize]; exact h1), rfl, rfl⟩
  · exact appendWith_of_no_space ch log1 dev1 args (by rw [hsize]; exact h2)

/-- C10, amended, on the simulated device: after a three-unit append to the empty log over
`[0, 16)` thirteen units are left. -/
theorem capacity_check_tight_witness :
    ((emptyLog 4 0 16).write_head_ = (emptyLog 4 0 16).min_zone_head_ ∧
      SuccessfulAppends (simChannel (plainSim 4)) (emptyLog 4 0 16) (simDevice 0)
        [⟨AppendArgs.ofData [] 3 none true, 3, none⟩] ⟨0, 16, 4, 3, 0⟩
        { state := 3, calls := [ChannelCall.DirectAppend 0 [] 3 true SZDStatus.Success 3] } ∧
      sub64 (⟨0, 16, 4, 3, 0⟩ : SZDOnceLog).max_zone_head_
        (⟨0, 16, 4, 3, 0⟩ : SZDOnceLog).write_head_ ≠ 2 ^ 64 - 1) ∧
    (⟨0, 16, 4, 3, 0⟩ : SZDOnceLog).SpaceLeft 13 = true ∧
    (⟨0, 16, 4, 3, 0⟩ : SZDOnceLog).SpaceLeft 14 = false :=
  have hrun : SuccessfulAppends (simChannel (plainSim 4)) (emptyLog 4 0 16) (simDevice 0)
      [⟨AppendArgs.ofData [] 3 none true, 3, none⟩] ⟨0, 16, 4, 3, 0⟩
      { state := 3, calls := [ChannelCall.DirectAppend 0 [] 3 true SZDStatus.Success 3] } :=
    SuccessfulAppends.step (AppendArgs.ofData [] 3 none true) 3
      { status := SZDStatus.Success
        log := ⟨0, 16, 4, 3, 0⟩
        dev := { state := 3
                 calls := [ChannelCall.DirectAppend 0 [] 3 true SZDStatus.Success 3] }
        lbas := none } rfl rfl rfl (SuccessfulAppends.done _ _)
  have h := capacity_check_tight (simChannel (plainSim 4)) (emptyLog 4 0 16)
    ⟨0, 16, 4, 3, 0⟩ (simDevice 0) _ _ rfl hrun (by decide)
  ⟨⟨rfl, hrun, by decide⟩, h.1, h.2.1⟩

/-! ## C11: the 100KB scenario -/

/-- C11, as stated, fails.  After the 100KB append of the scenario (four zones of 64KB, the
channel advancing the write head to 102400) the remaining capacity is
`262144 - 102400 = 159744`, so `SpaceLeft(160000)` is false, not true. -/
theorem scenario_spaceLeft_160000 :
    (emptyLog 65536 0 262144).AppendWith (simChannel (plainSim 65536)) (simDevice 0)
        (AppendArgs.ofData [] 102400 none true) =
      .ok { status := SZDStatus.Success
            log := ⟨0, 262144, 65536, 102400, 65536⟩
            dev := { state := 102400
                     calls := [ChannelCall.DirectAppend 0 [] 102400 true SZDStatus.Success
                       102400] }
            lbas := none } ∧
    (⟨0, 262144, 65536, 102400, 65536⟩ : SZDOnceLog).SpaceLeft 160000 = false ∧
    262144 - 102400 = 159744 :=
  ⟨rfl, by decide, by decide⟩

/-- C11, amended. For the empty log over four zones of 64KB (`min_zone_head_ = 0`,
`max_zone_head_ = 262144`, `zone_size_ = 65536`), after one successful `Append` (any
overload, of a size that fits the range) for which the channel advances the write head to
102400: `write_head_ = 102400`, `zone_head_ = 65536`, `SpaceLeft` is true up to the
remaining capacity 159744 and false from 159745 on, so `SpaceLeft(160000)` and
`SpaceLeft(170000)` are both false. -/
theorem scenario_after_100KB (ch : SZDChannel σ) (dev : Device σ) (args : AppendArgs)
    (hsize : args.size ≤ 262144)
    (hstatus : (dev.appendCall ch 0 args).status = SZDStatus.Success)
    (hhead : (dev.appendCall ch 0 args).head = 102400) :
    ∃ r, (emptyLog 65536 0 262144).AppendWith ch dev args = .ok r ∧
      r.status = SZDStatus.Success ∧
      r.log.write_head_ = 102400 ∧ r.log.zone_head_ = 65536 ∧
      r.log.SpaceLeft 159744 = true ∧ r.log.SpaceLeft 159745 = false ∧
      r.log.SpaceLeft 160000 = false ∧ r.log.SpaceLeft 170000 = false := by
  have hspace : (emptyLog 65536 0 262144).SpaceLeft args.size = true := by
    simp only [SZDOnceLog.SpaceLeft, emptyLog, decide_eq_true_eq]
    have : sub64 262144 0 = 262144 := by decide
    omega
  have hrun := appendWith_of_space ch (emptyLog 65536 0 262144) dev args (by decide) hspace
  have hw : (emptyLog 65536 0 262144).write_head_ = 0 := rfl
  rw [hw, hstatus, hhead] at hrun
  refine ⟨_, hrun, rfl, rfl, ?_, ?_, ?_, ?_, ?_⟩
  · show 102400 / 65536 * 65536 = 65536
    decide
  · show (⟨0, 262144, 65536, 102400, 102400 / 65536 * 65536⟩ : SZDOnceLog).SpaceLeft 159744 =
      true
    decide
  · show (⟨0, 262144, 65536, 102400, 102400 / 65536 * 65536⟩ : SZDOnceLog).SpaceLeft 159745 =
      false
    decide
  · show (⟨0, 262144, 65536, 102400, 102400 / 65536 * 65536⟩ : SZDOnceLog).SpaceLeft 160000 =
      false
    decide
  · show (⟨0, 262144, 65536, 102400, 102400 / 65536 * 65536⟩ : SZDOnceLog).SpaceLeft 170000 =
      false
    decide

/-- C11, amended, on the simulated device. -/
theorem scenario_after_100KB_witness :
    ((AppendArgs.ofData [] 102400 none true).size ≤ 262144 ∧
      ((simDevice 0).appendCall (simChannel (plainSim 65536)) 0
        (AppendArgs.ofData [] 102400 none true)).status = SZDStatus.Success ∧
      ((simDevice 0).appendCall (simChannel (plainSim 65536)) 0
        (AppendArgs.ofData [] 102400 none true)).head = 102400) ∧
    ∃ r, (emptyLog 65536 0 262144).AppendWith (simChannel (plainSim 65536)) (simDevice 0)
        (AppendArgs.ofData [] 102400 none true) = .ok r ∧
      r.status = SZDStatus.Success ∧
      r.log.write_head_ = 102400 ∧ r.log.zone_head_ = 65536 ∧
      r.log.SpaceLeft 159744 = true ∧ r.log.SpaceLeft 159745 = false ∧
      r.log.SpaceLeft 160000 = false ∧ r.log.SpaceLeft 170000 = false :=
  ⟨⟨by decide, by decide, by decide⟩,
    scenario_after_100KB (simChannel (plainSim 65536)) (simDevice 0)
      (AppendArgs.ofData [] 102400 none true) (by decide) (by decide) (by decide)⟩

/-! ## C14: reads are delegated -/

/-- C14. For every log state: each `Read` overload makes exactly one channel call and no
check of its own (`DirectRead` for a raw destination, `ReadIntoBuffer` for a buffer) with
the caller's address, size and alignment flag (and destination offset), returns the status
of that call and leaves the log, so `write_head_` and `zone_head_`, as it was; the buffer
`Read` without a destination offset is the buffer `Read` with destination offset 0. -/
theorem read_delegates (ch : SZDChannel σ) (log : SZDOnceLog) (dev : Device σ)
    (data : List Nat) (buffer : SZDBuffer) (lba size addr : Nat) (alligned : Bool) :
    log.Read ch dev data lba size alligned =
        { status := (ch.DirectRead dev.state lba data size alligned).1
          log := log
          dev := { state := (ch.DirectRead dev.state lba data size alligned).2.2
                   calls := dev.calls ++
                     [ChannelCall.DirectRead lba size alligned
                       (ch.DirectRead dev.state lba data size alligned).1] }
          data := (ch.DirectRead dev.state lba data size alligned).2.1 } ∧
      log.Read_section ch dev buffer addr size lba alligned =
        { status := (ch.ReadIntoBuffer dev.state lba buffer addr size alligned).1
          log := log
          dev := { state := (ch.ReadIntoBuffer dev.state lba buffer addr size alligned).2.2
                   calls := dev.calls ++
                     [ChannelCall.ReadIntoBuffer lba addr size alligned
                       (ch.ReadIntoBuffer dev.state lba buffer addr size alligned).1] }
          buffer := (ch.ReadIntoBuffer dev.state lba buffer addr size alligned).2.1 } ∧
      log.Read_buffer ch dev buffer lba size alligned =
        log.Read_section ch dev buffer 0 size lba alligned ∧
      (log.Read ch dev data lba size alligned).log.write_head_ = log.write_head_ ∧
      (log.Read ch dev data lba size alligned).log.zone_head_ = log.zone_head_ ∧
      (log.Read_section ch dev buffer addr size lba alligned).log.write_head_ =
        log.write_head_ ∧
      (log.Read_section ch dev buffer addr size lba alligned).log.zone_head_ =
        log.zone_head_ :=
  ⟨rfl, rfl, rfl, rfl, rfl, rfl, rfl⟩

/-! ## C15: the append overloads agree -/

/-- Every `Append` overload is: the capacity check on its size, then its channel call, then
the cursor update from the value the call left in `write_head_`. -/
theorem appendWith_eq (ch : SZDChannel σ) (log : SZDOnceLog) (dev : Device σ)
    (args : AppendArgs) :
    log.AppendWith ch dev args =
      if log.SpaceLeft args.size = false then
        .ok { status := SZDStatus.IOError, log := log, dev := dev, lbas := args.lbas }
      else if log.zone_size_ = 0 then
        .error Fault.DivisionByZero
      else
        .ok { status := (dev.appendCall ch log.write_head_ args).status
              log := { log with
                       write_head_ := (dev.appendCall ch log.write_head_ args).head,
                       zone_head_ := mul64 ((dev.appendCall ch log.write_head_ args).head /
                         log.zone_size_) log.zone_size_ }
              dev := (dev.appendCall ch log.write_head_ args).dev
              lbas := args.lbas.map (fun _ =>
                sub64 (dev.appendCall ch log.write_head_ args).head log.write_head_) } := by
  cases args <;>
    simp only [SZDOnceLog.AppendWith, SZDOnceLog.Append, SZDOnceLog.Append_string,
      SZDOnceLog.Append_section, SZDOnceLog.Append_buffer, AppendArgs.size, AppendArgs.lbas,
      Device.appendCall] <;>
    cases log.SpaceLeft _ <;> simp

/-- C15. The string overload is the raw overload applied to the bytes and the length of the
string, with `alligned = true`; and any two `Append` calls on the same log, of any two
overloads, with the same size and the same `lbas` cell, whose channel primitives return the
same status and leave the same write head, have the same outcome: the same status (or
fault), the same `write_head_`, `zone_head_` and `lbas` output. -/
theorem append_overloads_agree (ch1 ch2 : SZDChannel σ) (log : SZDOnceLog)
    (dev1 dev2 : Device σ) (args1 args2 : AppendArgs) (string : List Nat) (lbas : Option Nat)
    (hsize : args1.size = args2.size) (hlbas : args1.lbas = args2.lbas)
    (hstatus : (dev1.appendCall ch1 log.write_head_ args1).status =
      (dev2.appendCall ch2 log.write_head_ args2).status)
    (hhead : (dev1.appendCall ch1 log.write_head_ args1).head =
      (dev2.appendCall ch2 log.write_head_ args2).head) :
    log.Append_string ch1 dev1 string lbas =
        log.Append ch1 dev1 string string.length lbas true ∧
      (log.AppendWith ch1 dev1 args1).map
          (fun r => (r.status, r.log.write_head_, r.log.zone_head_, r.lbas, r.log)) =
        (log.AppendWith ch2 dev2 args2).map
          (fun r => (r.status, r.log.write_head_, r.log.zone_head_, r.lbas, r.log)) := by
  refine ⟨rfl, ?_⟩
  rw [appendWith_eq ch1 log dev1 args1, appendWith_eq ch2 log dev2 args2, hsize, hlbas,
    hstatus, hhead]
  cases log.SpaceLeft args2.size
  · rfl
  · by_cases hz : log.zone_size_ = 0
    · simp [hz]
    · simp only [hz, if_false, Bool.true_eq_false]
      rfl

/-- C15 on the simulated device: a raw append and a whole-buffer append of six units. -/
theorem append_overloads_agree_witness :
    ((AppendArgs.ofData [1] 6 (some 0) false).size =
        (AppendArgs.ofBuffer ⟨[2], 6⟩ (some 0)).size ∧
      (AppendArgs.ofData [1] 6 (some 0) false).lbas =
        (AppendArgs.ofBuffer ⟨[2], 6⟩ (some 0)).lbas) ∧
    ((emptyLog 4 0 16).Append_string (simChannel (plainSim 4)) (simDevice 0) [7, 8] none =
        (emptyLog 4 0 16).Append (simChannel (plainSim 4)) (simDevice 0) [7, 8] 2 none true ∧
      ((emptyLog 4 0 16).AppendWith (simChannel (plainSim 4)) (simDevice 0)
          (AppendArgs.ofData [1] 6 (some 0) false)).map
          (fun r => (r.status, r.log.write_head_, r.log.zone_head_, r.lbas, r.log)) =
        ((emptyLog 4 0 16).AppendWith (simChannel (plainSim 4)) (simDevice 0)
          (AppendArgs.ofBuffer ⟨[2], 6⟩ (some 0))).map
          (fun r => (r.status, r.log.write_head_, r.log.zone_head_, r.lbas, r.log))) :=
  ⟨⟨rfl, rfl⟩,
    append_overloads_agree (simChannel (plainSim 4)) (simChannel (plainSim 4))
      (emptyLog 4 0 16) (simDevice 0) (simDevice 0) (AppendArgs.ofData [1] 6 (some 0) false)
      (AppendArgs.ofBuffer ⟨[2], 6⟩ (some 0)) [7, 8] none rfl rfl rfl rfl⟩

/-! ## The zone scan of `RecoverPointers` on an arbitrary device -/

theorem range_map_shift (f : Nat → Option Nat) (g : Nat → Option Nat) (n : Nat)
    (hfg : ∀ t, g (t + 1) = f t) :
    g 0 :: (List.range n).map f = (List.range (n + 1)).map g := by
  rw [List.range_succ_eq_map, List.map_cons, List.map_map]
  congr 1
  apply List.map_congr_left
  intro t _
  exact (hfg t).symm

/-- The loop of `RecoverPointers` entered at the zone of index `i` with `k` zones left: it
ends within `k + 1` loop tests, having queried `n ≤ k` consecutive zones in address order,
either without an early return and with every query successful, or returning the status of
its last query, the only one that failed. -/
theorem recoverPointersLoop_run (ch : SZDChannel σ) (log : SZDOnceLog) (hgeo : log.Geometry) :
    ∀ (k i fuel write_head zone_head : Nat) (dev : Device σ),
      i + k = log.zones → k < fuel →
      ∃ x new n, SZDOnceLog.RecoverPointersLoop ch log fuel
          (log.min_zone_head_ + i * log.zone_size_) write_head zone_head dev = .ok x ∧
        x.dev.calls = dev.calls ++ new ∧ n ≤ k ∧
        new.map ChannelCall.zoneHeadAt =
          (List.range n).map (fun t => some (log.min_zone_head_ + (i + t) * log.zone_size_)) ∧
        ((x.returned = none ∧ ∀ c ∈ new, c.status = SZDStatus.Success) ∨
          ∃ pre c, new = pre ++ [c] ∧ (∀ d ∈ pre, d.status = SZDStatus.Success) ∧
            c.status ≠ SZDStatus.Success ∧ x.returned = some c.status) := by
  have hrange := geometry_range log hgeo
  have hz := hgeo.1
  have hmax := hgeo.2.2.1
  intro k
  induction k with
  | zero =>
    intro i fuel write_head zone_head dev hik hfuel
    obtain ⟨f, rfl⟩ : ∃ f, fuel = f + 1 := ⟨fuel - 1, by omega⟩
    have hi : i = log.zones := by omega
    subst hi
    have hnot : ¬ log.min_zone_head_ + log.zones * log.zone_size_ < log.max_zone_head_ := by
      omega
    refine ⟨{ returned := none, write_head := write_head, dev := dev }, [], 0, ?_, by simp,
      Nat.le_refl _, by simp, Or.inl ⟨rfl, by simp⟩⟩
    simp only [SZDOnceLog.RecoverPointersLoop, hnot, if_false]
  | succ k ih =>
    intro i fuel write_head zone_head dev hik hfuel
    obtain ⟨f, rfl⟩ : ∃ f, fuel = f + 1 := ⟨fuel - 1, by omega⟩
    have hi : i < log.zones := by omega
    have hlt : log.min_zone_head_ + i * log.zone_size_ < log.max_zone_head_ :=
      (geometry_zone_index log hgeo i).1 hi
    have hmul : (i + 1) * log.zone_size_ = i * log.zone_size_ + log.zone_size_ :=
      Nat.succ_mul i _
    have hnext_le : log.min_zone_head_ + i * log.zone_size_ + log.zone_size_ ≤
        log.max_zone_head_ := by
      have := Nat.mul_le_mul_right log.zone_size_ (show i + 1 ≤ log.zones by omega)
      omega
    have hnext : add64 (log.min_zone_head_ + i * log.zone_size_) log.zone_size_ =
        log.min_zone_head_ + (i + 1) * log.zone_size_ := by
      unfold add64
      rw [Nat.mod_eq_of_lt (by omega)]
      omega
    have hzero : log.min_zone_head_ + (i + 0) * log.zone_size_ =
        log.min_zone_head_ + i * log.zone_size_ := by simp
    have hone : (List.range 1).map
        (fun t => some (log.min_zone_head_ + (i + t) * log.zone_size_)) =
        [some (log.min_zone_head_ + i * log.zone_size_)] := by
      simp [List.range_succ]
    have hstep := ih (i + 1) f
    generalize hslba : log.min_zone_head_ + i * log.zone_size_ = slba at *
    have hjournal : (dev.ZoneHead ch slba zone_head).dev.calls = dev.calls ++
        [ChannelCall.ZoneHead slba (dev.ZoneHead ch slba zone_head).status
          (dev.ZoneHead ch slba zone_head).head] := rfl
    by_cases hst : (dev.ZoneHead ch slba zone_head).status = SZDStatus.Success
    · simp only [SZDOnceLog.RecoverPointersLoop, hlt, if_true, hst, ne_eq, not_true_eq_false,
        if_false, hnext]
      generalize (if (dev.ZoneHead ch slba zone_head).head > slba then
        (dev.ZoneHead ch slba zone_head).head else write_head) = w1
      by_cases hc : w1 > log.min_zone_head_ ∧ (dev.ZoneHead ch slba zone_head).head = slba
      · rw [if_pos hc]
        refine ⟨_, _, 1, rfl, hjournal, by omega, ?_, Or.inl ⟨rfl, ?_⟩⟩
        · rw [hone]
          rfl
        · intro c hcmem
          rw [List.mem_singleton.1 hcmem]
          exact hst
      · rw [if_neg hc]
        obtain ⟨x, new, n, hrun, hcalls, hn, hmap, hcase⟩ :=
          hstep w1 (dev.ZoneHead ch slba zone_head).head (dev.ZoneHead ch slba zone_head).dev
            (by omega) (by omega)
        refine ⟨x, ChannelCall.ZoneHead slba (dev.ZoneHead ch slba zone_head).status
          (dev.ZoneHead ch slba zone_head).head :: new, n + 1, hrun, ?_, by omega, ?_, ?_⟩
        · rw [hcalls, hjournal]
          simp
        · rw [List.map_cons, hmap]
          show some slba :: _ = _
          rw [← hzero]
          exact range_map_shift _
            (fun t => some (log.min_zone_head_ + (i + t) * log.zone_size_)) n
            (fun t => by
              show some (log.min_zone_head_ + (i + (t + 1)) * log.zone_size_) = _
              rw [show i + (t + 1) = i + 1 + t by omega])
        · rcases hcase with ⟨hret, hall⟩ | ⟨pre, c, hnew, hpre, hc1, hret⟩
          · refine Or.inl ⟨hret, fun c hcmem => ?_⟩
            rcases List.mem_cons.1 hcmem with rfl | hcmem
            · exact hst
            · exact hall c hcmem
          · refine Or.inr ⟨_ :: pre, c, by rw [hnew]; rfl, fun d hd => ?_, hc1, hret⟩
            rcases List.mem_cons.1 hd with rfl | hd
            · exact hst
            · exact hpre d hd
    · simp only [SZDOnceLog.RecoverPointersLoop, hlt, if_true, hst, ne_eq, not_false_eq_true]
      refine ⟨_, _, 1, rfl, hjournal, by omega, ?_, Or.inr ⟨[], _, rfl, by simp, hst, rfl⟩⟩
      rw [hone]
      rfl

/-- The outcome of `RecoverPointers` under the geometry precondition: it ends within
`zones + 1` loop tests without a fault, having queried `n ≤ zones` consecutive zones from
`min_zone_head_` on, either with `Success` and every query successful, or at the first
failing query with the status of that query and the log untouched. -/
theorem recoverPointers_run (ch : SZDChannel σ) (log : SZDOnceLog) (dev : Device σ)
    (fuel : Nat) (hgeo : log.Geometry) (hfuel : log.zones < fuel) :
    ∃ r new n, log.RecoverPointers fuel ch dev = .ok r ∧ r.dev.calls = dev.calls ++ new ∧
      n ≤ log.zones ∧
      new.map ChannelCall.zoneHeadAt =
        (List.range n).map (fun t => some (log.min_zone_head_ + t * log.zone_size_)) ∧
      ((r.status = SZDStatus.Success ∧ ∀ c ∈ new, c.status = SZDStatus.Success) ∨
        ∃ pre c, new = pre ++ [c] ∧ (∀ d ∈ pre, d.status = SZDStatus.Success) ∧
          c.status ≠ SZDStatus.Success ∧ r.status = c.status ∧ r.log = log) := by
  obtain ⟨x, new, n, hrun, hcalls, hn, hmap, hcase⟩ :=
    recoverPointersLoop_run ch log hgeo log.zones 0 fuel log.min_zone_head_
      log.min_zone_head_ dev (by omega) hfuel
  simp only [Nat.zero_mul, Nat.add_zero, Nat.zero_add] at hrun hmap
  have hz : log.zone_size_ ≠ 0 := by have := hgeo.1; omega
  rcases hcase with ⟨hret, hall⟩ | ⟨pre, c, hnew, hpre, hc, hret⟩
  · exact ⟨{ status := SZDStatus.Success
             log := { log with
                      write_head_ := x.write_head,
                      zone_head_ := mul64 (x.write_head / log.zone_size_) log.zone_size_ }
             dev := x.dev }, new, n,
      by simp only [SZDOnceLog.RecoverPointers, hrun, hret, hz, if_false], hcalls, hn, hmap,
      Or.inl ⟨rfl, hall⟩⟩
  · exact ⟨{ status := c.status, log := log, dev := x.dev }, new, n,
      by simp only [SZDOnceLog.RecoverPointers, hrun, hret], hcalls, hn, hmap,
      Or.inr ⟨pre, c, hnew, hpre, hc, rfl, rfl⟩⟩

/-! ## C13: a recovery whose query fails -/

/-- C13. Under the geometry precondition `RecoverPointers` ends (within `zones + 1` loop
tests), its calls being `ZoneHead` queries of consecutive zones from `min_zone_head_` on, and
in every run in which some query returned a status other than `Success`: the failing query
is the last call made (every earlier query returned `Success`, no further query is issued),
`RecoverPointers` returns exactly the status of that query, and the log, so `write_head_` and
`zone_head_`, is as it was before the call. -/
theorem recoverPointers_failure (ch : SZDChannel σ) (log : SZDOnceLog) (dev : Device σ)
    (fuel : Nat) (hgeo : log.Geometry) (hfuel : log.zones < fuel) :
    ∃ r new n, log.RecoverPointers fuel ch dev = .ok r ∧ r.dev.calls = dev.calls ++ new ∧
      n ≤ log.zones ∧
      new.map ChannelCall.zoneHeadAt =
        (List.range n).map (fun t => some (log.min_zone_head_ + t * log.zone_size_)) ∧
      ((∃ c ∈ new, c.status ≠ SZDStatus.Success) →
        ∃ pre c, new = pre ++ [c] ∧ (∀ d ∈ pre, d.status = SZDStatus.Success) ∧
          c.status ≠ SZDStatus.Success ∧ r.status = c.status ∧ r.log = log ∧
          r.log.write_head_ = log.write_head_ ∧ r.log.zone_head_ = log.zone_head_) := by
  obtain ⟨r, new, n, hrun, hcalls, hn, hmap, hcase⟩ :=
    recoverPointers_run ch log dev fuel hgeo hfuel
  refine ⟨r, new, n, hrun, hcalls, hn, hmap, fun hbad => ?_⟩
  rcases hcase with ⟨_, hall⟩ | ⟨pre, c, hnew, hpre, hc, hstatus, hlog⟩
  · obtain ⟨c, hc, hne⟩ := hbad
    exact absurd (hall c hc) hne
  · exact ⟨pre, c, hnew, hpre, hc, hstatus, hlog, by rw [hlog], by rw [hlog]⟩

/-- C13 on the simulated device: the query of the second of three zones fails. -/
theorem recoverPointers_failure_witness :
    ((⟨0, 12, 4, 6, 4⟩ : SZDOnceLog).Geometry ∧ (⟨0, 12, 4, 6, 4⟩ : SZDOnceLog).zones < 4) ∧
    (∃ r new n, (⟨0, 12, 4, 6, 4⟩ : SZDOnceLog).RecoverPointers 4 (simChannel brokenSim)
        (simDevice 9) = .ok r ∧
      r.dev.calls = (simDevice 9).calls ++ new ∧
      n ≤ (⟨0, 12, 4, 6, 4⟩ : SZDOnceLog).zones ∧
      new.map ChannelCall.zoneHeadAt = (List.range n).map (fun t => some (0 + t * 4)) ∧
      ((∃ c ∈ new, c.status ≠ SZDStatus.Success) →
        ∃ pre c, new = pre ++ [c] ∧ (∀ d ∈ pre, d.status = SZDStatus.Success) ∧
          c.status ≠ SZDStatus.Success ∧ r.status = c.status ∧ r.log = ⟨0, 12, 4, 6, 4⟩ ∧
          r.log.write_head_ = 6 ∧ r.log.zone_head_ = 4)) ∧
    (⟨0, 12, 4, 6, 4⟩ : SZDOnceLog).RecoverPointers 4 (simChannel brokenSim) (simDevice 9) =
      .ok { status := SZDStatus.DeviceError
            log := ⟨0, 12, 4, 6, 4⟩
            dev := { state := 9
                     calls := [ChannelCall.ZoneHead 0 SZDStatus.Success 4,
                               ChannelCall.ZoneHead 4 SZDStatus.DeviceError 4] } } :=
  ⟨⟨by decide, by decide⟩,
    recoverPointers_failure (simChannel brokenSim) ⟨0, 12, 4, 6, 4⟩ (simDevice 9) 4
      (by decide) (by decide), rfl⟩

/-! ## C16: the zone scans end and stay in the range -/

theorem resetCalls_addresses (zone_size slba n : Nat) :
    (resetCalls zone_size slba n).map ChannelCall.resetZoneAt =
      (List.range n).map (fun t => some (slba + t * zone_size)) := by
  simp only [resetCalls, List.map_map]
  rfl

/-- C16. Under the geometry precondition (`zone_size_ > 0`, `min_zone_head_ ≤ max_zone_head_`
both multiples of `zone_size_`, as `uint64_t` values): `ResetAll` and `RecoverPointers` end
without a fault (neither out of fuel after `zones + 1` loop tests nor by a division by
zero), each having run its loop body `n ≤ zones = (max_zone_head_ - min_zone_head_) /
zone_size_` times, once for each of the scan addresses `min_zone_head_ + t * zone_size_`,
`t < n`; every such address is a multiple of `zone_size_` inside
`[min_zone_head_, max_zone_head_)`, and stepping it by `zone_size_` does not wrap around
`2 ^ 64`. -/
theorem zone_scans_total (ch : SZDChannel σ) (log : SZDOnceLog) (dev : Device σ) (fuel : Nat)
    (hgeo : log.Geometry) (hfuel : log.zones < fuel) :
    (∃ r new n, log.ResetAll fuel ch dev = .ok r ∧ r.dev.calls = dev.calls ++ new ∧
      n ≤ log.zones ∧
      new.map ChannelCall.resetZoneAt =
        (List.range n).map (fun t => some (log.min_zone_head_ + t * log.zone_size_))) ∧
    (∃ r new n, log.RecoverPointers fuel ch dev = .ok r ∧ r.dev.calls = dev.calls ++ new ∧
      n ≤ log.zones ∧
      new.map ChannelCall.zoneHeadAt =
        (List.range n).map (fun t => some (log.min_zone_head_ + t * log.zone_size_))) ∧
    (∀ t, t < log.zones →
      log.min_zone_head_ ≤ log.min_zone_head_ + t * log.zone_size_ ∧
      log.min_zone_head_ + t * log.zone_size_ < log.max_zone_head_ ∧
      log.zone_size_ ∣ log.min_zone_head_ + t * log.zone_size_ ∧
      log.min_zone_head_ + t * log.zone_size_ + log.zone_size_ < 2 ^ 64 ∧
      add64 (log.min_zone_head_ + t * log.zone_size_) log.zone_size_ =
        log.min_zone_head_ + (t + 1) * log.zone_size_) ∧
    log.zone_size_ ≠ 0 := by
  have hz := hgeo.1
  have hmax := hgeo.2.2.1
  refine ⟨?_, ?_, ?_, by omega⟩
  · obtain ⟨r, hrun, hcase⟩ := resetAll_run ch log dev fuel hgeo hfuel
    rcases hcase with ⟨_, _, hcalls⟩ | ⟨j, e, hj, _, _, _, hcalls⟩
    · exact ⟨r, _, log.zones, hrun, hcalls, Nat.le_refl _, resetCalls_addresses _ _ _⟩
    · refine ⟨r, _, j + 1, hrun, hcalls, hj, ?_⟩
      rw [List.map_append, resetCalls_addresses, List.range_succ, List.map_append]
      rfl
  · obtain ⟨r, new, n, hrun, hcalls, hn, hmap, _⟩ :=
      recoverPointers_run ch log dev fuel hgeo hfuel
    exact ⟨r, new, n, hrun, hcalls, hn, hmap⟩
  · intro t ht
    have hlt := (geometry_zone_index log hgeo t).1 ht
    have hnext := Nat.mul_le_mul_right log.zone_size_ (show t + 1 ≤ log.zones from ht)
    have hmul : (t + 1) * log.zone_size_ = t * log.zone_size_ + log.zone_size_ :=
      Nat.succ_mul t _
    have hrange := geometry_range log hgeo
    refine ⟨Nat.le_add_right _ _, hlt,
      Nat.dvd_add hgeo.2.2.2.1 (Dvd.intro_left _ rfl), by omega, ?_⟩
    unfold add64
    rw [Nat.mod_eq_of_lt (by omega)]
    omega

/-- C16 on the simulated device: the two zones of `[0, 8)`. -/
theorem zone_scans_total_witness :
    ((⟨0, 8, 4, 6, 4⟩ : SZDOnceLog).Geometry ∧ (⟨0, 8, 4, 6, 4⟩ : SZDOnceLog).zones < 3) ∧
    (⟨0, 8, 4, 6, 4⟩ : SZDOnceLog).ResetAll 3 (simChannel (plainSim 4)) (simDevice 6) =
      .ok { status := SZDStatus.Success
            log := ⟨0, 8, 4, 0, 0⟩
            dev := { state := 0
                     calls := [ChannelCall.ResetZone 0 SZDStatus.Success,
                               ChannelCall.ResetZone 4 SZDStatus.Success] } } ∧
    (⟨0, 8, 4, 6, 4⟩ : SZDOnceLog).RecoverPointers 3 (simChannel (plainSim 4)) (simDevice 6) =
      .ok { status := SZDStatus.Success
            log := ⟨0, 8, 4, 6, 4⟩
            dev := { state := 6
                     calls := [ChannelCall.ZoneHead 0 SZDStatus.Success 4,
                               ChannelCall.ZoneHead 4 SZDStatus.Success 6] } } ∧
    (⟨0, 8, 4, 6, 4⟩ : SZDOnceLog).zone_size_ ≠ 0 :=
  ⟨⟨by decide, by decide⟩, rfl, rfl,
    (zone_scans_total (simChannel (plainSim 4)) ⟨0, 8, 4, 6, 4⟩ (simDevice 6) 3 (by decide)
      (by decide)).2.2.2⟩

/-! ## The zone scan of `RecoverPointers` on given per-zone write pointers -/

/-- One loop test and body of the scan at the zone of index `i`, on a device that reports
the pointers `p`: the query is journalled, and the loop either takes its `break` or goes on
at the next zone. -/
theorem recoverPointersLoop_step (ch : SZDChannel σ) (log : SZDOnceLog) (p : Nat → Nat)
    (P : σ → Prop) (hgeo : log.Geometry) (hrep : ReportsPointers ch log p P)
    (i write_head zone_head : Nat) (dev : Device σ) (hi : i < log.zones)
    (hP : P dev.state) :
    ∃ dev1 : Device σ, P dev1.state ∧
      dev1.calls = dev.calls ++
        [ChannelCall.ZoneHead (log.min_zone_head_ + i * log.zone_size_) SZDStatus.Success
          (p (log.min_zone_head_ + i * log.zone_size_))] ∧
      ∀ f, SZDOnceLog.RecoverPointersLoop ch log (f + 1)
          (log.min_zone_head_ + i * log.zone_size_) write_head zone_head dev =
        if (if p (log.min_zone_head_ + i * log.zone_size_) >
              log.min_zone_head_ + i * log.zone_size_
            then p (log.min_zone_head_ + i * log.zone_size_) else write_head) >
              log.min_zone_head_ ∧
            p (log.min_zone_head_ + i * log.zone_size_) =
              log.min_zone_head_ + i * log.zone_size_ then
          .ok { returned := none
                write_head :=
                  if p (log.min_zone_head_ + i * log.zone_size_) >
                    log.min_zone_head_ + i * log.zone_size_
                  then p (log.min_zone_head_ + i * log.zone_size_) else write_head
                dev := dev1 }
        else
          SZDOnceLog.RecoverPointersLoop ch log f
            (log.min_zone_head_ + (i + 1) * log.zone_size_)
            (if p (log.min_zone_head_ + i * log.zone_size_) >
              log.min_zone_head_ + i * log.zone_size_
             then p (log.min_zone_head_ + i * log.zone_size_) else write_head)
            (p (log.min_zone_head_ + i * log.zone_size_)) dev1 := by
  have hrange := geometry_range log hgeo
  have hz := hgeo.1
  have hmax := hgeo.2.2.1
  have hlt : log.min_zone_head_ + i * log.zone_size_ < log.max_zone_head_ :=
    (geometry_zone_index log hgeo i).1 hi
  have hmul : (i + 1) * log.zone_size_ = i * log.zone_size_ + log.zone_size_ :=
    Nat.succ_mul i _
  have hnext_le : log.min_zone_head_ + i * log.zone_size_ + log.zone_size_ ≤
      log.max_zone_head_ := by
    have := Nat.mul_le_mul_right log.zone_size_ (show i + 1 ≤ log.zones by omega)
    omega
  have hnext : add64 (log.min_zone_head_ + i * log.zone_size_) log.zone_size_ =
      log.min_zone_head_ + (i + 1) * log.zone_size_ := by
    unfold add64
    rw [Nat.mod_eq_of_lt (by omega)]
    omega
  obtain ⟨hst, hhead, hP1⟩ := hrep dev hP i hi zone_head
  refine ⟨(dev.ZoneHead ch (log.min_zone_head_ + i * log.zone_size_) zone_head).dev, hP1, ?_,
    fun f => ?_⟩
  · rw [← hhead, ← hst]
    rfl
  · simp only [SZDOnceLog.RecoverPointersLoop, hlt, if_true, hst, ne_eq, not_true_eq_false,
      if_false, hhead, hnext]

theorem zoneHeadCalls_succ (log : SZDOnceLog) (p : Nat → Nat) (n : Nat) :
    zoneHeadCalls log p (n + 1) = zoneHeadCalls log p n ++
      [ChannelCall.ZoneHead (log.min_zone_head_ + n * log.zone_size_) SZDStatus.Success
        (p (log.min_zone_head_ + n * log.zone_size_))] := by
  simp only [zoneHeadCalls, List.range_succ, List.map_append, List.map_cons, List.map_nil]

/-- As long as no `break` is taken, the scan of the first `n` zones leaves the loop at the
zone of index `n` with the local `write_head` equal to `scanHead log p n` and the `n` queries
journalled. -/
theorem recoverPointersLoop_prefix (ch : SZDChannel σ) (log : SZDOnceLog) (p : Nat → Nat)
    (P : σ → Prop) (hgeo : log.Geometry) (hrep : ReportsPointers ch log p P)
    (dev : Device σ) (hP : P dev.state) :
    ∀ n, n ≤ log.zones → (∀ t, t < n → ¬ scanBreaks log p t) →
      ∃ (zone_head : Nat) (dev1 : Device σ), P dev1.state ∧
        dev1.calls = dev.calls ++ zoneHeadCalls log p n ∧
        ∀ f, SZDOnceLog.RecoverPointersLoop ch log (f + n) log.min_zone_head_
            log.min_zone_head_ log.min_zone_head_ dev =
          SZDOnceLog.RecoverPointersLoop ch log f
            (log.min_zone_head_ + n * log.zone_size_) (scanHead log p n) zone_head dev1 := by
  intro n
  induction n with
  | zero =>
    intro _ _
    exact ⟨log.min_zone_head_, dev, hP, by simp [zoneHeadCalls], fun f => by
      simp only [Nat.add_zero, Nat.zero_mul, scanHead]⟩
  | succ n ih =>
    intro hn hno
    obtain ⟨zone_head, dev1, hP1, hcalls, hrun⟩ :=
      ih (by omega) (fun t ht => hno t (by omega))
    obtain ⟨dev2, hP2, hcalls2, hstep⟩ :=
      recoverPointersLoop_step ch log p P hgeo hrep n (scanHead log p n) zone_head dev1
        (by omega) hP1
    refine ⟨p (log.min_zone_head_ + n * log.zone_size_), dev2, hP2, ?_, fun f => ?_⟩
    · rw [hcalls2, hcalls, zoneHeadCalls_succ, List.append_assoc]
    · have hbreak := hno n (Nat.lt_succ_self n)
      rw [show f + (n + 1) = f + 1 + n by omega, hrun (f + 1), hstep f]
      unfold scanBreaks at hbreak
      rw [scanHead] at hbreak
      rw [if_neg hbreak]
      rfl

theorem reportsPointers_lt (ch : SZDChannel σ) (log : SZDOnceLog) (p : Nat → Nat)
    (P : σ → Prop) (hrep : ReportsPointers ch log p P) (dev : Device σ) (hP : P dev.state)
    (t : Nat) (ht : t < log.zones) :
    p (log.min_zone_head_ + t * log.zone_size_) < 2 ^ 64 := by
  rw [← (hrep dev hP t ht 0).2.1]
  exact wrap64_lt _

theorem scanHead_lt (log : SZDOnceLog) (p : Nat → Nat) (hmin : log.min_zone_head_ < 2 ^ 64)
    (hp : ∀ t, t < log.zones → p (log.min_zone_head_ + t * log.zone_size_) < 2 ^ 64) :
    ∀ n, n ≤ log.zones → scanHead log p n < 2 ^ 64 := by
  intro n
  induction n with
  | zero => intro _; exact hmin
  | succ n ih =>
    intro hn
    rw [scanHead]
    split_ifs
    · exact hp n (by omega)
    · exact ih (by omega)

theorem scanHead_unwritten (log : SZDOnceLog) (p : Nat → Nat) :
    ∀ n, (∀ t, t < n → ¬ p (log.min_zone_head_ + t * log.zone_size_) >
      log.min_zone_head_ + t * log.zone_size_) → scanHead log p n = log.min_zone_head_ := by
  intro n
  induction n with
  | zero => intro _; rfl
  | succ n ih =>
    intro h
    rw [scanHead, if_neg (h n (Nat.lt_succ_self n))]
    exact ih (fun t ht => h t (by omega))

/-- The scan stops at the zone of index `n`, the first at which the `break` is taken, or at
the end of the range: `RecoverPointers` returns `Success`, having queried the zones up to and
including that zone, and stores the local `write_head` reached there. -/
theorem recoverPointers_stop (ch : SZDChannel σ) (log : SZDOnceLog) (p : Nat → Nat)
    (P : σ → Prop) (hgeo : log.Geometry) (hrep : ReportsPointers ch log p P)
    (dev : Device σ) (hP : P dev.state) (fuel : Nat) (hfuel : log.zones < fuel) (n : Nat)
    (hn : n ≤ log.zones) (hno : ∀ t, t < n → ¬ scanBreaks log p t)
    (hstop : n = log.zones ∨ scanBreaks log p n) :
    ∃ r, log.RecoverPointers fuel ch dev = .ok r ∧ r.status = SZDStatus.Success ∧
      r.log = { log with
                write_head_ := scanHead log p (min (n + 1) log.zones),
                zone_head_ := scanHead log p (min (n + 1) log.zones) / log.zone_size_ *
                  log.zone_size_ } ∧
      r.dev.calls = dev.calls ++ zoneHeadCalls log p (min (n + 1) log.zones) := by
  have hrange := geometry_range log hgeo
  have hz : log.zone_size_ ≠ 0 := by have := hgeo.1; omega
  have hmin64 : log.min_zone_head_ < 2 ^ 64 := by
    have := hgeo.2.1
    have := hgeo.2.2.1
    omega
  have hlt64 := scanHead_lt log p hmin64 (reportsPointers_lt ch log p P hrep dev hP)
  obtain ⟨zone_head, dev1, hP1, hcalls, hrun⟩ :=
    recoverPointersLoop_prefix ch log p P hgeo hrep dev hP n hn hno
  by_cases hnz : n = log.zones
  · subst hnz
    obtain ⟨f, rfl⟩ : ∃ f, fuel = f + 1 + log.zones := ⟨fuel - 1 - log.zones, by omega⟩
    have hm : min (log.zones + 1) log.zones = log.zones := by omega
    have hnot : ¬ log.min_zone_head_ + log.zones * log.zone_size_ < log.max_zone_head_ := by
      omega
    have hloop := hrun (f + 1)
    simp only [SZDOnceLog.RecoverPointersLoop, hnot, if_false] at hloop
    rw [hm]
    refine ⟨{ status := SZDStatus.Success
              log := { log with
                       write_head_ := scanHead log p log.zones,
                       zone_head_ := scanHead log p log.zones / log.zone_size_ *
                         log.zone_size_ }
              dev := dev1 }, ?_, rfl, rfl, hcalls⟩
    simp only [SZDOnceLog.RecoverPointers, hloop, hz, if_false,
      mul64_round_down (hlt64 _ (Nat.le_refl _))]
  · have hlt : n < log.zones := by omega
    have hbreak : scanBreaks log p n := by
      rcases hstop with h | h
      · exact absurd h hnz
      · exact h
    obtain ⟨f, rfl⟩ : ∃ f, fuel = f + 1 + n := ⟨fuel - 1 - n, by omega⟩
    have hm : min (n + 1) log.zones = n + 1 := by omega
    obtain ⟨dev2, _, hcalls2, hstep⟩ :=
      recoverPointersLoop_step ch log p P hgeo hrep n (scanHead log p n) zone_head dev1 hlt
        hP1
    have hsh : scanHead log p (n + 1) =
        (if p (log.min_zone_head_ + n * log.zone_size_) >
            log.min_zone_head_ + n * log.zone_size_
          then p (log.min_zone_head_ + n * log.zone_size_) else scanHead log p n) := rfl
    have hloop := hrun (f + 1)
    unfold scanBreaks at hbreak
    rw [hsh] at hbreak
    rw [hstep f, if_pos hbreak, ← hsh] at hloop
    rw [hm]
    refine ⟨{ status := SZDStatus.Success
              log := { log with
                       write_head_ := scanHead log p (n + 1),
                       zone_head_ := scanHead log p (n + 1) / log.zone_size_ *
                         log.zone_size_ }
              dev := dev2 }, ?_, rfl, rfl, ?_⟩
    · simp only [SZDOnceLog.RecoverPointers, hloop, hz, if_false,
        mul64_round_down (hlt64 _ hlt)]
    · show dev2.calls = _
      rw [hcalls2, hcalls, zoneHeadCalls_succ, List.append_assoc]

theorem scan_stop_exists (log : SZDOnceLog) (p : Nat → Nat) :
    ∀ m, (∀ t, t < m → ¬ scanBreaks log p t) ∨
      ∃ n, n < m ∧ scanBreaks log p n ∧ ∀ t, t < n → ¬ scanBreaks log p t := by
  intro m
  induction m with
  | zero => exact Or.inl (fun t ht => absurd ht (Nat.not_lt_zero t))
  | succ m ih =>
    rcases ih with hno | ⟨n, hn, hb, hno⟩
    · by_cases hb : scanBreaks log p m
      · exact Or.inr ⟨m, Nat.lt_succ_self m, hb, hno⟩
      · refine Or.inl (fun t ht => ?_)
        rcases Nat.lt_succ_iff_lt_or_eq.1 ht with h | h
        · exact hno t h
        · rw [h]; exact hb
    · exact Or.inr ⟨n, by omega, hb, hno⟩

/-! ## C12: the result of the recovery scan -/

/-- C12. For a zone-aligned range with `zone_size_ > 0` and per-zone write pointers
`p s ≥ s` whose queries all succeed, `RecoverPointers` ends with `Success` and
`zone_head_ = (write_head_ / zone_size_) * zone_size_`, and:
if no zone has `p s > s`, all zones are queried, in address order, and
`write_head_ = min_zone_head_`;
if `j` is the first zone with `p s > s` and `k` the first zone after `j` whose pointer is
its own start (the end of the range if there is none), `write_head_` is the pointer of the
zone just before `k`, and the zones queried are those up to and including `k`, in address
order, so no zone after `k` is queried. -/
theorem recoverPointers_scan (ch : SZDChannel σ) (log : SZDOnceLog) (dev : Device σ)
    (fuel : Nat) (p : Nat → Nat) (P : σ → Prop) (hgeo : log.Geometry)
    (hfuel : log.zones < fuel) (hP : P dev.state) (hrep : ReportsPointers ch log p P)
    (hp : ∀ i, i < log.zones → log.min_zone_head_ + i * log.zone_size_ ≤
      p (log.min_zone_head_ + i * log.zone_size_)) :
    ∃ r, log.RecoverPointers fuel ch dev = .ok r ∧ r.status = SZDStatus.Success ∧
      r.log.zone_head_ = r.log.write_head_ / log.zone_size_ * log.zone_size_ ∧
      (r.log.min_zone_head_ = log.min_zone_head_ ∧
        r.log.max_zone_head_ = log.max_zone_head_ ∧ r.log.zone_size_ = log.zone_size_) ∧
      ((∀ i, i < log.zones → ¬ p (log.min_zone_head_ + i * log.zone_size_) >
          log.min_zone_head_ + i * log.zone_size_) →
        r.log.write_head_ = log.min_zone_head_ ∧
          r.dev.calls = dev.calls ++ zoneHeadCalls log p log.zones) ∧
      (∀ j k, j < log.zones →
        p (log.min_zone_head_ + j * log.zone_size_) > log.min_zone_head_ + j * log.zone_size_ →
        (∀ i, i < j → ¬ p (log.min_zone_head_ + i * log.zone_size_) >
          log.min_zone_head_ + i * log.zone_size_) →
        j < k → k ≤ log.zones →
        (∀ i, j < i → i < k → p (log.min_zone_head_ + i * log.zone_size_) ≠
          log.min_zone_head_ + i * log.zone_size_) →
        (k < log.zones → p (log.min_zone_head_ + k * log.zone_size_) =
          log.min_zone_head_ + k * log.zone_size_) →
        r.log.write_head_ = p (log.min_zone_head_ + (k - 1) * log.zone_size_) ∧
          r.dev.calls = dev.calls ++ zoneHeadCalls log p (min (k + 1) log.zones)) := by
  have hstopAt := recoverPointers_stop ch log p P hgeo hrep dev hP fuel hfuel
  have hexists : ∃ n, n ≤ log.zones ∧ (∀ t, t < n → ¬ scanBreaks log p t) ∧
      (n = log.zones ∨ scanBreaks log p n) := by
    rcases scan_stop_exists log p log.zones with hno | ⟨n, hn, hb, hno⟩
    · exact ⟨log.zones, Nat.le_refl _, hno, Or.inl rfl⟩
    · exact ⟨n, by omega, hno, Or.inr hb⟩
  obtain ⟨n, hn, hno, hstop⟩ := hexists
  obtain ⟨r, hr, hstatus, hlog, _⟩ := hstopAt n hn hno hstop
  refine ⟨r, hr, hstatus, by rw [hlog], by rw [hlog]; exact ⟨rfl, rfl, rfl⟩, ?_, ?_⟩
  · intro hall
    have hnone : ∀ t, t < log.zones → ¬ scanBreaks log p t := by
      intro t ht hb
      have h := scanHead_unwritten log p (t + 1) (fun u hu => hall u (by omega))
      have h1 := hb.1
      omega
    obtain ⟨r1, hr1, _, hlog1, hcalls1⟩ :=
      hstopAt log.zones (Nat.le_refl _) hnone (Or.inl rfl)
    have hm : min (log.zones + 1) log.zones = log.zones := by omega
    have heq : r = r1 := Except.ok.inj (hr.symm.trans hr1)
    rw [hm] at hlog1 hcalls1
    rw [heq, hlog1]
    exact ⟨scanHead_unwritten log p log.zones hall, hcalls1⟩
  · intro j k hj hpj hbefore hjk hk hbetween hend
    obtain ⟨k1, rfl⟩ : ∃ k1, k = k1 + 1 := ⟨k - 1, by omega⟩
    have hwritten : p (log.min_zone_head_ + k1 * log.zone_size_) >
        log.min_zone_head_ + k1 * log.zone_size_ := by
      by_cases hk1 : k1 = j
      · rw [hk1]; exact hpj
      · have h1 := hbetween k1 (by omega) (by omega)
        have h2 := hp k1 (by omega)
        omega
    have hsk : scanHead log p (k1 + 1) = p (log.min_zone_head_ + k1 * log.zone_size_) := by
      rw [scanHead, if_pos hwritten]
    have hnone : ∀ t, t < k1 + 1 → ¬ scanBreaks log p t := by
      intro t ht hb
      by_cases h1 : t < j
      · have h := scanHead_unwritten log p (t + 1) (fun u hu => hbefore u (by omega))
        have h2 := hb.1
        omega
      · by_cases h2 : t = j
        · have h3 := hb.2
          rw [h2] at h3
          omega
        · exact hbetween t (by omega) ht hb.2
    have hstop1 : k1 + 1 = log.zones ∨ scanBreaks log p (k1 + 1) := by
      by_cases h : k1 + 1 = log.zones
      · exact Or.inl h
      · refine Or.inr ⟨?_, hend (by omega)⟩
        have hpk := hend (by omega)
        rw [scanHead, if_neg (by omega), hsk]
        have := Nat.le_add_right log.min_zone_head_ (k1 * log.zone_size_)
        omega
    obtain ⟨r1, hr1, _, hlog1, hcalls1⟩ := hstopAt (k1 + 1) hk hnone hstop1
    have heq : r = r1 := Except.ok.inj (hr.symm.trans hr1)
    have hhead : scanHead log p (min (k1 + 1 + 1) log.zones) =
        p (log.min_zone_head_ + k1 * log.zone_size_) := by
      by_cases h : k1 + 1 = log.zones
      · rw [show min (k1 + 1 + 1) log.zones = k1 + 1 by omega, hsk]
      · have hpk := hend (by omega)
        rw [show min (k1 + 1 + 1) log.zones = k1 + 1 + 1 by omega, scanHead,
          if_neg (by omega), hsk]
    rw [heq, hlog1]
    exact ⟨hhead, hcalls1⟩

theorem gappedPointers_reported :
    ReportsPointers (tableChannel gappedPointers) (emptyLog 4 0 16) gappedPointers
      (fun _ => True) := by
  intro dev _ i hi zone_head
  have hi4 : i < 4 := hi
  refine ⟨rfl, ?_, trivial⟩
  show wrap64 (gappedPointers (0 + i * 4)) = gappedPointers (0 + i * 4)
  unfold wrap64 gappedPointers
  split_ifs <;> omega

/-- C12 on a device whose four zones report the pointers 0, 7, 8 and 14: the first written
zone is the second (`j = 1`), the first empty zone after it the third (`k = 2`); the write
head recovered is 7 and the fourth zone is not queried. -/
theorem recoverPointers_scan_witness :
    ((emptyLog 4 0 16).Geometry ∧ (emptyLog 4 0 16).zones < 5) ∧
    (∃ r, (emptyLog 4 0 16).RecoverPointers 5 (tableChannel gappedPointers) (simDevice 0) =
        .ok r ∧ r.status = SZDStatus.Success ∧ r.log.write_head_ = 7 ∧
      r.log.zone_head_ = r.log.write_head_ / 4 * 4 ∧
      r.dev.calls = [ChannelCall.ZoneHead 0 SZDStatus.Success 0,
                     ChannelCall.ZoneHead 4 SZDStatus.Success 7,
                     ChannelCall.ZoneHead 8 SZDStatus.Success 8]) ∧
    (emptyLog 4 0 16).RecoverPointers 5 (tableChannel gappedPointers) (simDevice 0) =
      .ok { status := SZDStatus.Success
            log := ⟨0, 16, 4, 7, 4⟩
            dev := { state := 0
                     calls := [ChannelCall.ZoneHead 0 SZDStatus.Success 0,
                               ChannelCall.ZoneHead 4 SZDStatus.Success 7,
                               ChannelCall.ZoneHead 8 SZDStatus.Success 8] } } :=
  ⟨⟨by decide, by decide⟩,
    (recoverPointers_scan (tableChannel gappedPointers) (emptyLog 4 0 16) (simDevice 0) 5
      gappedPointers (fun _ => True) (by decide) (by decide) trivial gappedPointers_reported
      (fun i hi => by
        have hi4 : i < 4 := hi
        show 0 + i * 4 ≤ gappedPointers (0 + i * 4)
        unfold gappedPointers
        split_ifs <;> omega)).elim
      (fun r h => ⟨r, h.1, h.2.1,
        (h.2.2.2.2.2 1 2 (by decide) (by decide)
          (fun i hi => by
            have hi0 : i = 0 := by omega
            subst hi0
            decide)
          (by decide) (by decide) (fun i h1 h2 => by omega) (fun _ => by decide)).1,
        h.2.2.1,
        (h.2.2.2.2.2 1 2 (by decide) (by decide)
          (fun i hi => by
            have hi0 : i = 0 := by omega
            subst hi0
            decide)
          (by decide) (by decide) (fun i h1 h2 => by omega) (fun _ => by decide)).2⟩),
    rfl⟩

/-! ## The recovery scan reads only the geometry and the device -/

/-- The loop of `RecoverPointers` run on two logs with the same geometry and two devices in
the same state (whatever their journals) ends the same way. -/
theorem recoverPointersLoop_congr (ch : SZDChannel σ) (log1 log2 : SZDOnceLog)
    (hmin : log1.min_zone_head_ = log2.min_zone_head_)
    (hmax : log1.max_zone_head_ = log2.max_zone_head_)
    (hzs : log1.zone_size_ = log2.zone_size_) :
    ∀ (fuel slba write_head zone_head : Nat) (dev1 dev2 : Device σ),
      dev1.state = dev2.state →
      (SZDOnceLog.RecoverPointersLoop ch log1 fuel slba write_head zone_head dev1).map
          ScanExit.view =
        (SZDOnceLog.RecoverPointersLoop ch log2 fuel slba write_head zone_head dev2).map
          ScanExit.view := by
  intro fuel
  induction fuel with
  | zero => intro _ _ _ _ _ _; rfl
  | succ f ih =>
    intro slba write_head zone_head dev1 dev2 hst
    obtain ⟨st, c1⟩ := dev1
    obtain ⟨st2, c2⟩ := dev2
    simp only at hst
    subst hst
    have hs : (Device.ZoneHead ⟨st, c1⟩ ch slba zone_head).status =
        (Device.ZoneHead ⟨st, c2⟩ ch slba zone_head).status := rfl
    have hh : (Device.ZoneHead ⟨st, c1⟩ ch slba zone_head).head =
        (Device.ZoneHead ⟨st, c2⟩ ch slba zone_head).head := rfl
    have hd : (Device.ZoneHead ⟨st, c1⟩ ch slba zone_head).dev.state =
        (Device.ZoneHead ⟨st, c2⟩ ch slba zone_head).dev.state := rfl
    simp only [SZDOnceLog.RecoverPointersLoop, hmin, hmax, hzs, hs, hh]
    by_cases hlt : slba < log2.max_zone_head_
    · simp only [hlt, if_true]
      by_cases hstat : (Device.ZoneHead ⟨st, c2⟩ ch slba zone_head).status = SZDStatus.Success
      · simp only [hstat, ne_eq, not_true_eq_false, if_false]
        split_ifs
        all_goals first
          | rfl
          | exact ih _ _ _ _ _ hd
      · simp only [ne_eq, hstat, not_false_eq_true, if_true]
        rfl
    · simp only [hlt, if_false]
      rfl

/-- The loop of `RecoverPointers` returns from inside only with a status other than
`Success`. -/
theorem recoverPointersLoop_returned (ch : SZDChannel σ) (log : SZDOnceLog) :
    ∀ (fuel slba write_head zone_head : Nat) (dev : Device σ) (x : ScanExit σ),
      SZDOnceLog.RecoverPointersLoop ch log fuel slba write_head zone_head dev = .ok x →
      x.returned ≠ some SZDStatus.Success := by
  intro fuel
  induction fuel with
  | zero =>
    intro slba write_head zone_head dev x hx
    simp [SZDOnceLog.RecoverPointersLoop] at hx
  | succ f ih =>
    intro slba write_head zone_head dev x hx
    unfold SZDOnceLog.RecoverPointersLoop at hx
    by_cases hlt : slba < log.max_zone_head_
    · rw [if_pos hlt] at hx
      by_cases hst : (dev.ZoneHead ch slba zone_head).status = SZDStatus.Success
      · simp only [hst, ne_eq, not_true_eq_false, if_false] at hx
        generalize (if (dev.ZoneHead ch slba zone_head).head > slba then
          (dev.ZoneHead ch slba zone_head).head else write_head) = w1 at hx
        split_ifs at hx
        · cases hx
          simp
        · exact ih _ _ _ _ _ hx
      · simp only [ne_eq, hst, not_false_eq_true, if_true] at hx
        cases hx
        simpa using hst
    · rw [if_neg hlt] at hx
      cases hx
      simp

/-- On a channel whose `ZoneHead` leaves the device state as it is, the loop of
`RecoverPointers` does too. -/
theorem recoverPointersLoop_state (ch : SZDChannel σ) (log : SZDOnceLog)
    (hquery : ∀ st s zone_head, (ch.ZoneHead st s zone_head).2.2 = st) :
    ∀ (fuel slba write_head zone_head : Nat) (dev : Device σ) (x : ScanExit σ),
      SZDOnceLog.RecoverPointersLoop ch log fuel slba write_head zone_head dev = .ok x →
      x.dev.state = dev.state := by
  intro fuel
  induction fuel with
  | zero =>
    intro slba write_head zone_head dev x hx
    simp [SZDOnceLog.RecoverPointersLoop] at hx
  | succ f ih =>
    intro slba write_head zone_head dev x hx
    have hd : (dev.ZoneHead ch slba zone_head).dev.state = dev.state :=
      hquery dev.state slba zone_head
    unfold SZDOnceLog.RecoverPointersLoop at hx
    by_cases hlt : slba < log.max_zone_head_
    · rw [if_pos hlt] at hx
      by_cases hst : (dev.ZoneHead ch slba zone_head).status = SZDStatus.Success
      · simp only [hst, ne_eq, not_true_eq_false, if_false] at hx
        generalize (if (dev.ZoneHead ch slba zone_head).head > slba then
          (dev.ZoneHead ch slba zone_head).head else write_head) = w1 at hx
        split_ifs at hx
        · cases hx
          exact hd
        · exact (ih _ _ _ _ _ hx).trans hd
      · simp only [ne_eq, hst, not_false_eq_true, if_true] at hx
        cases hx
        exact hd
    · rw [if_neg hlt] at hx
      cases hx
      rfl

/-- A `RecoverPointers` that returns `Success` left its loop without an early return and
stored the final local `write_head`. -/
theorem recoverPointers_success_form (ch : SZDChannel σ) (log : SZDOnceLog) (dev : Device σ)
    (fuel : Nat) (r : Outcome σ) (hr : log.RecoverPointers fuel ch dev = .ok r)
    (hs : r.status = SZDStatus.Success) :
    ∃ x, SZDOnceLog.RecoverPointersLoop ch log fuel log.min_zone_head_ log.min_zone_head_
        log.min_zone_head_ dev = .ok x ∧ x.returned = none ∧ log.zone_size_ ≠ 0 ∧
      r = { status := SZDStatus.Success
            log := { log with
                     write_head_ := x.write_head,
                     zone_head_ := mul64 (x.write_head / log.zone_size_) log.zone_size_ }
            dev := x.dev } := by
  unfold SZDOnceLog.RecoverPointers at hr
  split at hr
  · cases hr
  · rename_i x hx
    have hne := recoverPointersLoop_returned ch log fuel _ _ _ dev x hx
    split at hr
    · rename_i s hret
      cases hr
      simp only at hs
      rw [hret, hs] at hne
      exact absurd rfl hne
    · rename_i hret
      split_ifs at hr with hz
      cases hr
      exact ⟨x, hx, hret, hz, rfl⟩

/-- A successful `RecoverPointers` carries over to any log with the same geometry and any
device in the same state: it returns `Success` there too, with the same log afterwards. -/
theorem recoverPointers_transfer (ch : SZDChannel σ) (log1 log2 : SZDOnceLog)
    (dev1 dev2 : Device σ) (fuel : Nat) (r1 : Outcome σ)
    (hmin : log1.min_zone_head_ = log2.min_zone_head_)
    (hmax : log1.max_zone_head_ = log2.max_zone_head_)
    (hzs : log1.zone_size_ = log2.zone_size_) (hdev : dev1.state = dev2.state)
    (hr1 : log1.RecoverPointers fuel ch dev1 = .ok r1)
    (hs : r1.status = SZDStatus.Success) :
    ∃ r2, log2.RecoverPointers fuel ch dev2 = .ok r2 ∧ r2.status = SZDStatus.Success ∧
      r2.log = r1.log ∧ r2.dev.state = r1.dev.state := by
  obtain ⟨x1, hx1, hret1, hz1, rfl⟩ :=
    recoverPointers_success_form ch log1 dev1 fuel r1 hr1 hs
  have hcongr := recoverPointersLoop_congr ch log1 log2 hmin hmax hzs fuel
    log1.min_zone_head_ log1.min_zone_head_ log1.min_zone_head_ dev1 dev2 hdev
  rw [hx1] at hcongr
  rw [hmin] at hcongr
  cases hx2 : SZDOnceLog.RecoverPointersLoop ch log2 fuel log2.min_zone_head_
      log2.min_zone_head_ log2.min_zone_head_ dev2 with
  | error e =>
    rw [hx2] at hcongr
    cases hcongr
  | ok x2 =>
    rw [hx2] at hcongr
    have hview : x1.view = x2.view := Except.ok.inj hcongr
    simp only [ScanExit.view, Prod.mk.injEq] at hview
    obtain ⟨hret, hwh, hstate⟩ := hview
    have hret2 : x2.returned = none := by rw [← hret, hret1]
    have hz2 : log2.zone_size_ ≠ 0 := by rw [← hzs]; exact hz1
    refine ⟨{ status := SZDStatus.Success
              log := { log2 with
                       write_head_ := x2.write_head,
                       zone_head_ := mul64 (x2.write_head / log2.zone_size_) log2.zone_size_ }
              dev := x2.dev }, ?_, rfl, ?_, hstate.symm⟩
    · simp only [SZDOnceLog.RecoverPointers, hx2, hret2, hz2, if_false]
    · simp only [← hmin, ← hmax, ← hzs, ← hwh]

/-! ## C17: recovery does not depend on the cursors -/

/-- C17. A successful `RecoverPointers` depends only on the device and the geometry: when it
returns `Success` on a log, then on any log with the same `min_zone_head_`, `max_zone_head_`
and `zone_size_` (whatever its `write_head_` and `zone_head_`) and a device in the same
state it returns `Success` with the same `write_head_` and `zone_head_`.  Consequently it is
idempotent: a second call on the recovered log against the device in the same state, and so
against the device the first call left when `ZoneHead` does not alter the device, returns
`Success` and leaves the log of the first call unchanged. -/
theorem recoverPointers_independent (ch : SZDChannel σ) (log1 log2 : SZDOnceLog)
    (dev1 dev2 : Device σ) (fuel : Nat) (r1 : Outcome σ)
    (hmin : log1.min_zone_head_ = log2.min_zone_head_)
    (hmax : log1.max_zone_head_ = log2.max_zone_head_)
    (hzs : log1.zone_size_ = log2.zone_size_) (hdev : dev1.state = dev2.state)
    (hr1 : log1.RecoverPointers fuel ch dev1 = .ok r1)
    (hs : r1.status = SZDStatus.Success) :
    (∃ r2, log2.RecoverPointers fuel ch dev2 = .ok r2 ∧ r2.status = SZDStatus.Success ∧
        r2.log.write_head_ = r1.log.write_head_ ∧ r2.log.zone_head_ = r1.log.zone_head_ ∧
        r2.log = r1.log) ∧
      (∀ dev3 : Device σ, dev3.state = dev1.state →
        ∃ r3, r1.log.RecoverPointers fuel ch dev3 = .ok r3 ∧
          r3.status = SZDStatus.Success ∧ r3.log = r1.log) ∧
      ((∀ st s zone_head, (ch.ZoneHead st s zone_head).2.2 = st) →
        ∃ r3, r1.log.RecoverPointers fuel ch r1.dev = .ok r3 ∧
          r3.status = SZDStatus.Success ∧ r3.log = r1.log) := by
  obtain ⟨x1, hx1, _, _, hr1form⟩ :=
    recoverPointers_success_form ch log1 dev1 fuel r1 hr1 hs
  have hg1 : log1.min_zone_head_ = r1.log.min_zone_head_ := by rw [hr1form]
  have hg2 : log1.max_zone_head_ = r1.log.max_zone_head_ := by rw [hr1form]
  have hg3 : log1.zone_size_ = r1.log.zone_size_ := by rw [hr1form]
  refine ⟨?_, fun dev3 hdev3 => ?_, fun hquery => ?_⟩
  · obtain ⟨r2, hr2, hs2, hlog, _⟩ :=
      recoverPointers_transfer ch log1 log2 dev1 dev2 fuel r1 hmin hmax hzs hdev hr1 hs
    exact ⟨r2, hr2, hs2, by rw [hlog], by rw [hlog], hlog⟩
  · obtain ⟨r3, hr3, hs3, hlog, _⟩ :=
      recoverPointers_transfer ch log1 r1.log dev1 dev3 fuel r1 hg1 hg2 hg3 hdev3.symm hr1 hs
    exact ⟨r3, hr3, hs3, hlog⟩
  · have hstate : r1.dev.state = dev1.state := by
      rw [hr1form]
      exact recoverPointersLoop_state ch log1 hquery fuel _ _ _ dev1 x1 hx1
    obtain ⟨r3, hr3, hs3, hlog, _⟩ :=
      recoverPointers_transfer ch log1 r1.log dev1 r1.dev fuel r1 hg1 hg2 hg3 hstate.symm
        hr1 hs
    exact ⟨r3, hr3, hs3, hlog⟩

/-- C17 on the simulated device written up to 6: recovery into a fresh log and into a log
with stale cursors gives the same cursors. -/
theorem recoverPointers_independent_witness :
    ((emptyLog 4 0 8).min_zone_head_ = (⟨0, 8, 4, 3, 0⟩ : SZDOnceLog).min_zone_head_ ∧
      (emptyLog 4 0 8).max_zone_head_ = (⟨0, 8, 4, 3, 0⟩ : SZDOnceLog).max_zone_head_ ∧
      (emptyLog 4 0 8).zone_size_ = (⟨0, 8, 4, 3, 0⟩ : SZDOnceLog).zone_size_ ∧
      (emptyLog 4 0 8).RecoverPointers 3 (simChannel (plainSim 4)) (simDevice 6) =
        .ok { status := SZDStatus.Success
              log := ⟨0, 8, 4, 6, 4⟩
              dev := { state := 6
                       calls := [ChannelCall.ZoneHead 0 SZDStatus.Success 4,
                                 ChannelCall.ZoneHead 4 SZDStatus.Success 6] } }) ∧
    (∃ r2, (⟨0, 8, 4, 3, 0⟩ : SZDOnceLog).RecoverPointers 3 (simChannel (plainSim 4))
        (simDevice 6) = .ok r2 ∧ r2.status = SZDStatus.Success ∧
      r2.log.write_head_ = 6 ∧ r2.log.zone_head_ = 4 ∧ r2.log = ⟨0, 8, 4, 6, 4⟩) :=
  ⟨⟨rfl, rfl, rfl, rfl⟩,
    (recoverPointers_independent (simChannel (plainSim 4)) (emptyLog 4 0 8) ⟨0, 8, 4, 3, 0⟩
      (simDevice 6) (simDevice 6) 3
      { status := SZDStatus.Success
        log := ⟨0, 8, 4, 6, 4⟩
        dev := { state := 6
                 calls := [ChannelCall.ZoneHead 0 SZDStatus.Success 4,
                           ChannelCall.ZoneHead 4 SZDStatus.Success 6] } }
      rfl rfl rfl rfl rfl rfl).1⟩

end SimpleZNSDeviceNamespace
